import Mathlib

/-!
Verification of the contractor-name normalization engine and the statistics
aggregation logic of the chicago-dig-bot repository
(`src/analytics/stats.py`, class `StatsGenerator`).

The Python code is shallowly embedded over `List Char`:

* Python string primitives (`upper`, `strip`, `split`, `capitalize`,
  `isupper`, `replace`) are modelled character by character: case mapping
  for the ASCII range, which covers all characters the pipeline's rule
  tables mention, and whitespace as Python's full `str.isspace` class
  (which is also what `\s` matches in a `str` pattern).
* The regular expressions appearing in `stats.py` are each modelled by an
  explicit matcher that mirrors the behaviour of the concrete pattern
  (`re.sub(r'\s+', ' ', …)`, `re.sub(r'[-\s]+', ' ', …)`,
  `re.sub(r'\([^)]+\)', '', …)`, the end-anchored business-suffix patterns,
  the parenthetical-suffix literals and `\(SL-\d+\)`).
* DuckDB aggregate queries are modelled over an explicit list of permit
  rows, with SQL `NULL` rendered as `Option` (`SUM` over an empty set is
  `NULL`; `COUNT` never is).  A `NULL` integer column surfaces in the
  Python layer as a pandas `NaN`, on which `int(x or 0)` raises; that path
  is modelled by `Except`.
-/

namespace DigBot

abbrev Str := List Char

/-- ASCII model of Python `str.upper` on a single character. -/
def pyUpperChar (c : Char) : Char :=
  match c with
  | 'a' => 'A' | 'b' => 'B' | 'c' => 'C' | 'd' => 'D' | 'e' => 'E'
  | 'f' => 'F' | 'g' => 'G' | 'h' => 'H' | 'i' => 'I' | 'j' => 'J'
  | 'k' => 'K' | 'l' => 'L' | 'm' => 'M' | 'n' => 'N' | 'o' => 'O'
  | 'p' => 'P' | 'q' => 'Q' | 'r' => 'R' | 's' => 'S' | 't' => 'T'
  | 'u' => 'U' | 'v' => 'V' | 'w' => 'W' | 'x' => 'X' | 'y' => 'Y'
  | 'z' => 'Z' | other => other

/-- ASCII model of Python `str.lower` on a single character. -/
def pyLowerChar (c : Char) : Char :=
  match c with
  | 'A' => 'a' | 'B' => 'b' | 'C' => 'c' | 'D' => 'd' | 'E' => 'e'
  | 'F' => 'f' | 'G' => 'g' | 'H' => 'h' | 'I' => 'i' | 'J' => 'j'
  | 'K' => 'k' | 'L' => 'l' | 'M' => 'm' | 'N' => 'n' | 'O' => 'o'
  | 'P' => 'p' | 'Q' => 'q' | 'R' => 'r' | 'S' => 's' | 'T' => 't'
  | 'U' => 'u' | 'V' => 'v' | 'W' => 'w' | 'X' => 'x' | 'Y' => 'y'
  | 'Z' => 'z' | other => other

/-- The characters Python treats as whitespace: `str.isspace()` is true
exactly on this set, and it is also what the regex `\s` matches in a
`str` pattern and what `str.strip()` / `str.split()` remove — the ASCII
controls U+0009–U+000D and U+001C–U+001F, the space, NEL, NBSP, and the
Unicode space separators. -/
def pyIsSpace (c : Char) : Bool :=
  c = ' ' || c = '\t' || c = '\n' || c = '\x0b' || c = '\x0c' || c = '\x0d' ||
  c = '\x1c' || c = '\x1d' || c = '\x1e' || c = '\x1f' ||
  c = '\x85' || c = '\xa0' || c = '\u1680' ||
  ('\u2000' ≤ c && c ≤ '\u200a') ||
  c = '\u2028' || c = '\u2029' || c = '\u202f' || c = '\u205f' || c = '\u3000'

/-- ASCII cased character (for Python `str.isupper`). -/
def pyIsCased (c : Char) : Bool :=
  ('a' ≤ c && c ≤ 'z') || ('A' ≤ c && c ≤ 'Z')

def pyIsUpperLetter (c : Char) : Bool := 'A' ≤ c && c ≤ 'Z'

/-- Python `str.isupper`: at least one cased character and no lowercase one. -/
def pyIsUpperStr (s : Str) : Bool :=
  s.any pyIsCased && s.all (fun c => !pyIsCased c || pyIsUpperLetter c)

def pyUpper (s : Str) : Str := s.map pyUpperChar

/-- Python `str.capitalize`: first character uppercased, the rest lowercased. -/
def pyCapitalize : Str → Str
  | [] => []
  | c :: cs => pyUpperChar c :: cs.map pyLowerChar

/-- `str.lstrip` for whitespace (used twice to build `strip`). -/
def dropLeadingWS : Str → Str
  | [] => []
  | c :: cs => if pyIsSpace c then dropLeadingWS cs else c :: cs

/-- Python `str.strip()`. -/
def pyStrip (s : Str) : Str :=
  ((dropLeadingWS ((dropLeadingWS s).reverse)).reverse)

/-- Collapse every maximal run of characters satisfying `p` to a single
space, as `re.sub(r'[…]+', ' ', s)` does.  The flag records whether the
previous character belonged to a run whose space was already emitted. -/
def collapseByAux (p : Char → Bool) : Bool → Str → Str
  | _, [] => []
  | prev, c :: cs =>
    if p c then
      if prev then collapseByAux p true cs
      else ' ' :: collapseByAux p true cs
    else c :: collapseByAux p false cs

def collapseBy (p : Char → Bool) (s : Str) : Str := collapseByAux p false s

/-- `re.sub(r'\s+', ' ', s)`. -/
def collapseWS (s : Str) : Str := collapseBy pyIsSpace s

def isHS (c : Char) : Bool := pyIsSpace c || c = '-'

/-- `re.sub(r'[-\s]+', ' ', s)`. -/
def collapseHS (s : Str) : Str := collapseBy isHS s

/-- `re.sub(r'\*+$', '', s)`: drop the trailing run of asterisks. -/
def dropTrailingStars (s : Str) : Str :=
  (s.reverse.dropWhile (fun c => c = '*')).reverse

/-- `s.replace('*', '')`. -/
def removeStars (s : Str) : Str := s.filter (fun c => c ≠ '*')

/-- Python `str.split()` (split on whitespace runs, dropping empties).
The accumulator holds the current word reversed. -/
def splitWSAux : Str → Str → List Str
  | acc, [] => if acc.isEmpty then [] else [acc.reverse]
  | acc, c :: cs =>
    if pyIsSpace c then
      if acc.isEmpty then splitWSAux [] cs
      else acc.reverse :: splitWSAux [] cs
    else splitWSAux (c :: acc) cs

def splitWS (s : Str) : List Str := splitWSAux [] s

/-- Python `str.split('-')` (keeps empty segments). -/
def splitHyAux : Str → Str → List Str
  | acc, [] => [acc.reverse]
  | acc, c :: cs =>
    if c = '-' then acc.reverse :: splitHyAux [] cs
    else splitHyAux (c :: acc) cs

def splitHyphen (s : Str) : List Str := splitHyAux [] s

/-- `sep.join(words)`. -/
def joinSep (sep : Str) : List Str → Str
  | [] => []
  | [w] => w
  | w :: ws => w ++ sep ++ joinSep sep ws

/-- Python `str.replace(old, new)`, non-overlapping, left to right.  The
first component of `old` is split off so that the pattern is known to be
non-empty; `fuel` makes the recursion structural (it is called with
`fuel = s.length`, which is always sufficient, and the fallback returns
the input unchanged). -/
def replaceStrAux (o : Char) (orest new : Str) : Nat → Str → Str
  | 0, s => s
  | _ + 1, [] => []
  | fuel + 1, c :: cs =>
    if (o :: orest).isPrefixOf (c :: cs) then
      new ++ replaceStrAux o orest new fuel (cs.drop orest.length)
    else c :: replaceStrAux o orest new fuel cs

def replaceStr (o : Char) (orest new s : Str) : Str :=
  replaceStrAux o orest new s.length s

/-! ### Regex matchers

A matcher returns the matched prefix and the remainder when the pattern
matches at the head of the string.  `searchFirst` is `re.search` (leftmost
match); `removeAll` is `re.sub(pattern, '', s)`. -/

/-- Matcher for a literal pattern. -/
def litMatcher (pat : Str) : Str → Option (Str × Str) := fun s =>
  if pat.isPrefixOf s then some (pat, s.drop pat.length) else none

/-- Matcher for `\(SL-\d+\)`: the digit run is matched greedily and must be
followed directly by the closing parenthesis. -/
def matchSLNum : Str → Option (Str × Str)
  | '(' :: 'S' :: 'L' :: '-' :: rest =>
    let ds := rest.takeWhile Char.isDigit
    (match rest.dropWhile Char.isDigit with
     | ')' :: tail =>
       if ds.isEmpty then none
       else some ('(' :: 'S' :: 'L' :: '-' :: (ds ++ [')']), tail)
     | _ => none)
  | _ => none

/-- Matcher for `\([^)]+\)`: an opening parenthesis, at least one character
other than `)`, then the first closing parenthesis. -/
def matchResidualParen : Str → Option (Str × Str)
  | '(' :: rest =>
    let inner := rest.takeWhile (fun c => c ≠ ')')
    (match rest.dropWhile (fun c => c ≠ ')') with
     | ')' :: tail =>
       if inner.isEmpty then none
       else some ('(' :: inner ++ [')'], tail)
     | _ => none)
  | _ => none

/-- `re.search`: find the leftmost match, returning
(prefix before the match, matched text, remainder). -/
def searchFirst (m : Str → Option (Str × Str)) : Str → Option (Str × Str × Str)
  | [] => (m []).map (fun r => ([], r.1, r.2))
  | c :: cs =>
    match m (c :: cs) with
    | some (mt, rest) => some ([], mt, rest)
    | none => (searchFirst m cs).map (fun r => (c :: r.1, r.2.1, r.2.2))

/-- `re.sub(pattern, '', s)`: remove every (non-overlapping, left-to-right)
match.  `fuel` makes the recursion structural; every matcher used here
consumes at least one character, so `fuel = s.length` is always enough. -/
def removeAllAux (m : Str → Option (Str × Str)) : Nat → Str → Str
  | 0, s => s
  | _ + 1, [] => []
  | fuel + 1, c :: cs =>
    match m (c :: cs) with
    | some (_, rest) => removeAllAux m fuel rest
    | none => c :: removeAllAux m fuel cs

def removeAll (m : Str → Option (Str × Str)) (s : Str) : Str :=
  removeAllAux m s.length s

/-! ### The rule tables of `StatsGenerator` (`stats.py` lines 22–118)

All parenthetical patterns carry `re.IGNORECASE` in the source, but they
only ever run on the output of `name.upper()`, so matching the uppercase
literals is exact. -/

/-- `BUSINESS_SUFFIXES`: each end-anchored pattern
`(?:,\s+)?BODY\.?$` is rendered as its list of body alternatives plus the
canonical replacement spelling, in dict order. -/
def BUSINESS_SUFFIXES : List (List String × String) :=
  [ (["INC", "INCORPORATED"], "Inc"),
    (["LLC"], "LLC"),
    (["CO", "COMPANY"], "Co"),
    (["CORP", "CORPORATION"], "Corp"),
    (["LTD"], "Ltd") ]

/-- `WORD_REPLACEMENTS` in dict order: pattern literal, whether the pattern
allows an optional trailing dot (`\.?`), and the replacement. -/
def WORD_REPLACEMENTS : List (String × Bool × String) :=
  [ ("CONSTRUCTION", false, "Construction"),
    ("NSTRUCTION", false, "Construction"),
    ("CONSTR", true, "Construction"),
    ("CONST", true, "Construction"),
    ("PLBG", true, "Plumbing"),
    ("HTG", true, "Heating"),
    ("EXCAV", true, "Excavating"),
    ("CONCRETE", false, "Concrete"),
    ("NCRETE", false, "Concrete") ]

/-- `NAME_MAPPINGS` in dict order. -/
def NAME_MAPPINGS : List (String × String) :=
  [ ("PEOPLES GAS", "Peoples Gas"),
    ("PEOPLE GAS", "Peoples Gas"),
    ("PEOPLES GAS LIGHT & COKE", "Peoples Gas"),
    ("INTEGRYS ENERGY GROUP / PEOPLES GAS", "Peoples Gas"),
    ("INTEGRYS ENERGY GROUP/PEOPLE GAS", "Peoples Gas"),
    ("COMED NORTH", "ComEd"),
    ("COMED", "ComEd"),
    ("COM ED", "ComEd"),
    ("COM-ED", "ComEd"),
    ("DWM", "Department of Water Management"),
    ("CITY OF CHICAGO DEPT OF WATER", "Department of Water Management"),
    ("CITY OF CHICAGO WATER DEPARTMENT", "Department of Water Management"),
    ("CITY OF CHICAGO (DEPT OF WATER MANAGEMENT)", "Department of Water Management"),
    ("CITY OF CHICAGO WATER DEPT", "Department of Water Management"),
    ("CHICAGO DEPT WATER MANAGEMENT", "Department of Water Management"),
    ("DEPT OF WATER MANAGEMENT", "Department of Water Management"),
    ("CDOT - IN HOUSE CONSTRUCTION", "CDOT - In-House Construction"),
    ("CDOT - IN-HOUSE CONSTRUCTION", "CDOT - In-House Construction"),
    ("CDOT - INHOUSECONSTRUCTION", "CDOT - In-House Construction"),
    ("CDOT-IN HOUSE CONSTRUCTION", "CDOT - In-House Construction"),
    ("CDOT-INHOUSECONSTRUCTION", "CDOT - In-House Construction"),
    ("CDOT-SIGN MANAGEMENT", "CDOT - Sign Management"),
    ("CDOT - SIGN MANAGEMENT", "CDOT - Sign Management"),
    ("SEVEN-D CONSTRUCTION", "Seven-D Construction"),
    ("SEVEN D CONSTRUCTION", "Seven-D Construction"),
    ("M & J ASPHALT", "M&J Asphalt"),
    ("M&J ASPHALT", "M&J Asphalt"),
    ("G & V CONST", "G&V Construction"),
    ("G&V CONST", "G&V Construction"),
    ("RELIABLE CONTRACTING & EQUIPMENT", "Reliable Contracting & Equipment"),
    ("RELIABLECONTRACTING&EQUIPMENT", "Reliable Contracting & Equipment"),
    ("RELIABLE CONTRACTING AND EQUIPMENT", "Reliable Contracting & Equipment"),
    ("MILLER PIPELINE", "Miller Pipeline") ]

/-- `WORD_CAPITALIZATIONS` in dict order. -/
def WORD_CAPITALIZATIONS : List (String × String) :=
  [ ("OF", "of"), ("AND", "and"), ("THE", "the"), ("IN", "in"),
    ("AT", "at"), ("BY", "by"), ("FOR", "for"), ("WITH", "with"),
    ("LLC", "LLC"), ("INC", "Inc"), ("CO", "Co"), ("DEPT", "Dept"),
    ("DBA", "dba") ]

/-- `PRESERVE_SUFFIXES` in list order, as matchers. -/
def PRESERVE_SUFFIXES : List (Str → Option (Str × Str)) :=
  [ matchSLNum,
    litMatcher "(SL)".data,
    litMatcher "(SEAL)".data,
    litMatcher "(OVERSIZE)".data ]

/-- `REMOVE_SUFFIXES` in list order. -/
def REMOVE_SUFFIXES : List String :=
  [ "(HOMEOWNER)", "(CONSTRUCTION)", "(COMMERCIAL)",
    "(LESSEE)", "(LOT OWNER)", "(DWM CONTRACT)" ]

/-- The first character exists and is not a hyphen/space separator. -/
def headOK (kk : Str) : Bool := ((kk.head?).map (fun a => !isHS a)).getD false

/-- The last character exists and is not a hyphen/space separator. -/
def lastOK (kk : Str) : Bool := ((kk.getLast?).map (fun a => !isHS a)).getD false

/-- Structural facts that hold for every key of `NAME_MAPPINGS` and drive
the alias-totality argument: non-empty, no asterisk, non-separator first
and last characters. -/
def keyShape (kk : Str) : Bool :=
  !kk.isEmpty && kk.all (fun c => c ≠ '*') && headOK kk && lastOK kk

/-! ### `_normalize_name` (`stats.py` lines 173–290) -/

/-- The preserve-suffix loop: the first pattern with a match is remembered
(with a leading space, mirroring `f" {match.group()}"`) and removed from
the string by `re.sub`; later patterns are not tried. -/
def extractPreservedAux : List (Str → Option (Str × Str)) → Str → Str × Str
  | [], s => ([], s)
  | m :: ms, s =>
    match searchFirst m s with
    | some (_, mt, _) => (' ' :: mt, removeAll m s)
    | none => extractPreservedAux ms s

/-- Whole-string match of the tail of an end-anchored business-suffix
pattern `(?:,\s+)?BODY\.?$` at the current position. -/
def bizBodyMatch (alts : List Str) (t : Str) : Bool :=
  alts.any (fun a => t == a || t == a ++ ['.'])

def bizTailMatch (alts : List Str) (s : Str) : Bool :=
  bizBodyMatch alts s ||
  (match s with
   | ',' :: rest =>
     (match rest with
      | d :: _ => pyIsSpace d && bizBodyMatch alts (rest.dropWhile pyIsSpace)
      | [] => false)
   | _ => false)

/-- `re.search` / `re.sub` for an end-anchored suffix pattern: the match
starts at the earliest position from which the pattern reaches the end of
the string, and removing it keeps the prefix before that position.
Returns `none` when no position matches (the body alternatives are
non-empty, so the empty string never matches). -/
def bizStripSuffix (alts : List Str) : Str → Option Str
  | [] => none
  | c :: cs =>
    if bizTailMatch alts (c :: cs) then some []
    else (bizStripSuffix alts cs).map (fun kept => c :: kept)

/-- The business-suffix loop: first pattern in dict order with a match
wins; the matched suffix is removed and the name stripped. -/
def extractBizAux : List (List String × String) → Str → Str × Str
  | [], s => ([], s)
  | (alts, rep) :: rest, s =>
    match bizStripSuffix (alts.map String.data) s with
    | some kept => (' ' :: rep.data, pyStrip kept)
    | none => extractBizAux rest s

/-- `any(re.search(pattern, original_name, re.IGNORECASE) for pattern in
self.BUSINESS_SUFFIXES.keys())`. -/
def bizAnyMatch (original : Str) : Bool :=
  BUSINESS_SUFFIXES.any (fun p => (bizStripSuffix (p.1.map String.data) original).isSome)

/-- Exact lookup `if name in self.NAME_MAPPINGS`. -/
def lookupExact (s : Str) : Option Str :=
  (NAME_MAPPINGS.find? (fun p => p.1.data == s)).map (fun p => p.2.data)

/-- The fallback loop comparing `re.sub(r'[-\s]+', ' ', name)` against
`re.sub(r'[-\s]+', ' ', pattern.upper())` in dict order. -/
def lookupCollapsed (s : Str) : Option Str :=
  let ni := collapseHS s
  (NAME_MAPPINGS.find? (fun p => collapseHS (pyUpper p.1.data) == ni)).map
    (fun p => p.2.data)

/-- The word-replacement loop: `re.match(f"^{pattern}$", word)` for the
first matching pattern in dict order. -/
def applyWordRepl (w : Str) : Str :=
  match WORD_REPLACEMENTS.find?
      (fun r => w == r.1.data || (r.2.1 && w == r.1.data ++ ['.'])) with
  | some r => r.2.2.data
  | none => w

def findCap (w : Str) : Option Str :=
  (WORD_CAPITALIZATIONS.find? (fun p => p.1.data == w)).map (fun p => p.2.data)

/-- The per-word capitalization rules, in the source's branch order. -/
def capitalizeWord (i : Nat) (w : Str) : Str :=
  if w.length ≤ 3 && pyIsUpperStr w && (findCap w).isNone then w
  else if "MC".data.isPrefixOf (pyUpper w) then
    'M' :: 'c' :: pyCapitalize (w.drop 2)
  else
    match findCap w with
    | some v => if i = 0 then pyCapitalize w else v
    | none =>
      if w.contains '-' then joinSep ['-'] ((splitHyphen w).map pyCapitalize)
      else pyCapitalize w

def capWords (ws : List Str) : List Str :=
  ws.enum.map (fun p => capitalizeWord p.1 p.2)

/-- `StatsGenerator._normalize_name`, step for step. -/
def normalizeChars (name0 : Str) : Str :=
  -- `if not name: return name`
  if name0.isEmpty then name0
  else
    -- `name = name.upper()`
    let name1 := pyUpper name0
    -- `re.sub(r'\*+$', '', name)` then `name.replace('*', '')`
    let name2 := removeStars (dropTrailingStars name1)
    -- `re.sub(r'\s+', ' ', name)` then `name.strip()`
    let name3 := pyStrip (collapseWS name2)
    let pres := extractPreservedAux PRESERVE_SUFFIXES name3
    let preserved := pres.1
    let name4 := pres.2
    -- the remove-suffix loop
    let name5 := REMOVE_SUFFIXES.foldl (fun s pat => removeAll (litMatcher pat.data) s) name4
    -- `re.sub(r'\([^)]+\)', '', name)`
    let name6 := removeAll matchResidualParen name5
    match lookupExact name6 with
    | some v => v ++ preserved
    | none =>
      match lookupCollapsed name6 with
      | some v => v ++ preserved
      | none =>
        let original := name6
        let biz := extractBizAux BUSINESS_SUFFIXES name6
        let bizSuffix := biz.1
        let name7 := biz.2
        -- `name.replace(' AND ', ' & ')`, `name.replace('&', ' & ')`,
        -- `re.sub(r'\s+', ' ', name)`
        let name8 := collapseWS (replaceStr '&' [] " & ".data
                       (replaceStr ' ' "AND ".data " & ".data name7))
        let name9 := joinSep [' '] ((splitWS name8).map applyWordRepl)
        let name10 := joinSep [' '] (capWords (splitWS name9))
        let name11 :=
          if !bizSuffix.isEmpty && bizAnyMatch original
          then name10 ++ bizSuffix else name10
        let name12 := if !preserved.isEmpty then name11 ++ preserved else name11
        pyStrip name12

def _normalize_name (s : String) : String := ⟨normalizeChars s.data⟩

/-! ### `_parse_record` (`stats.py` lines 292–324)

The pattern is
`(?:\{'': |^\()([^,]+?)(?:\*+)?,\s*(?:'': |)(\d+)(?:\}|\))`, used with
`re.search`.  The embedding reproduces the engine's behaviour:

* start positions are tried left to right; the brace prefix may match at
  any position, the `^\(` alternative only at position 0;
* group 1 (`[^,]+?`) is lazy: it grows one character at a time (never
  taking a comma) and after each growth step the rest of the pattern is
  tried;
* `(?:\*+)?` is greedy: a shorter-than-maximal star run would leave a `*`
  where the mandatory comma is required, so either the whole run is
  skipped or (when absorbing stars into group 1 later) none of it;
* `\s*` is greedy and cannot usefully backtrack, because neither `'` nor
  a digit is whitespace;
* `(?:'': |)` prefers its quoted branch. -/

def digitsToNat (ds : Str) : Nat :=
  ds.foldl (fun n c => 10 * n + (c.toNat - '0'.toNat)) 0

/-- `(\d+)(?:\}|\))`: a non-empty greedy digit run followed by a closing
brace or parenthesis (the rest of the string is unconstrained). -/
def parseCountClose (u : Str) : Option Nat :=
  let ds := u.takeWhile Char.isDigit
  if ds.isEmpty then none
  else
    match u.drop ds.length with
    | '}' :: _ => some (digitsToNat ds)
    | ')' :: _ => some (digitsToNat ds)
    | _ => none

/-- `\s*(?:'': |)(\d+)(?:\}|\))` after the comma. -/
def parseAfterComma (s : Str) : Option Nat :=
  let t := s.dropWhile pyIsSpace
  (if "\x27\x27: ".data.isPrefixOf t then parseCountClose (t.drop 4) else none)
    <|> parseCountClose t

/-- `(?:\*+)?,` then the rest: skip the maximal run of asterisks, require
the comma, parse the count. -/
def findCountAfterStars (u : Str) : Option Nat :=
  match u.dropWhile (fun c => c = '*') with
  | ',' :: after => parseAfterComma after
  | _ => none

/-- The lazy group-1 loop: extend by one non-comma character, then try the
rest of the pattern; on failure extend further. -/
def group1Loop : Str → Str → Option (Str × Nat)
  | _, [] => none
  | acc, c :: cs =>
    if c = ',' then none
    else
      match findCountAfterStars cs with
      | some n => some ((c :: acc).reverse, n)
      | none => group1Loop (c :: acc) cs

/-- Start positions 1, 2, …: only the brace prefix can match there. -/
def scanBrace : Str → Option (Str × Nat)
  | [] => none
  | c :: cs =>
    (if "\x7b\x27\x27: ".data.isPrefixOf (c :: cs) then group1Loop [] ((c :: cs).drop 5)
     else none)
    <|> scanBrace cs

def parseRecordChars (s : Str) : Option (Str × Nat) :=
  ((if "\x7b\x27\x27: ".data.isPrefixOf s then group1Loop [] (s.drop 5) else none)
    <|> (match s with
         | '(' :: rest => group1Loop [] rest
         | _ => none))
  <|> (match s with
       | [] => none
       | _ :: cs => scanBrace cs)

/-- `StatsGenerator._parse_record`: `none` models the `{}` returned for an
empty input or a failed match; otherwise
`{'name': self._normalize_name(match.group(1).strip()), 'count': int(match.group(2))}`. -/
def _parse_record (record_str : String) : Option (String × Nat) :=
  if record_str.data.isEmpty then none
  else
    match parseRecordChars record_str.data with
    | none => none
    | some (g1, n) => some (⟨normalizeChars (pyStrip g1)⟩, n)

/-! ### The aggregation queries (`stats.py` lines 326–574)

A permit row carries the columns the queries read.  `dig_date` is the
Chicago-local calendar date (`chicago_time::DATE`) as an integer day
number; `DAYNAME` is modelled as the day number modulo 7, which preserves
exactly the information the queries use (equality of weekday names). -/

structure PermitRow where
  contact_first_name : Option String
  contact_last_name : Option String
  dig_date : Int
  is_emergency : Bool
  street_name : String
deriving DecidableEq, Repr

/-- Distinct elements, first occurrence kept (SQL `DISTINCT` / `GROUP BY`). -/
def dedupFSAux [DecidableEq α] : List α → List α → List α
  | _, [] => []
  | seen, a :: as =>
    if a ∈ seen then dedupFSAux seen as else a :: dedupFSAux (a :: seen) as

def dedupFS [DecidableEq α] (l : List α) : List α := dedupFSAux [] l

structure DailyStats where
  total_permits : Int
  emergency_permits : Int
  regular_permits : Int
  unique_streets : Int
deriving DecidableEq, Repr

/-- `int(column or 0)` applied to a DuckDB integer column read through
`pandas`: a SQL `NULL` arrives as the float `NaN`, which is truthy, so
`int(NaN or 0)` raises `ValueError: cannot convert float NaN to integer`
(caught and re-raised as `StatsGenerationError`).  A present integer `n`
yields `n` (also for `n = 0`, where `or` picks the literal `0`). -/
def pyIntOr0 : Option Int → Except String Int
  | some n => .ok n
  | none => .error "cannot convert float NaN to integer"

/-- `StatsGenerator.generate_daily_stats` for a given row set and
(Chicago) yesterday.  The aggregate query always returns exactly one row
(`COUNT`/`SUM` without `GROUP BY`), so the `if result.empty` zero-filled
fallback in the source is unreachable; `SUM(CASE WHEN …)` over zero rows
is `NULL`, while both `COUNT` aggregates are `0`. -/
def generate_daily_stats (rows : List PermitRow) (yesterday : Int) :
    Except String DailyStats := do
  let m := rows.filter (fun r => r.dig_date = yesterday)
  let total_sql : Option Int := some m.length
  let emergency_sql : Option Int :=
    if m.isEmpty then none
    else some ((m.filter (fun r => r.is_emergency)).length : Int)
  let streets_sql : Option Int :=
    some ((dedupFS (m.map (fun r => r.street_name))).length : Int)
  let total ← pyIntOr0 total_sql
  let emergency ← pyIntOr0 emergency_sql
  let streets ← pyIntOr0 streets_sql
  return { total_permits := total, emergency_permits := emergency,
           regular_permits := total - emergency, unique_streets := streets }

/-! ### `get_day_of_week_comparison` (`stats.py` lines 382–489) -/

/-- `COUNT(*)` for one date (one row of the `GROUP BY` CTEs). -/
def dailyTotalOn (rows : List PermitRow) (d : Int) : Nat :=
  (rows.filter (fun r => r.dig_date = d)).length

/-- `SUM(CASE WHEN is_emergency THEN 1 ELSE 0 END)` for one date. -/
def dailyEmergencyOn (rows : List PermitRow) (d : Int) : Nat :=
  (rows.filter (fun r => r.dig_date = d && r.is_emergency)).length

/-- The dates contributing to `historical_counts`: distinct dates with at
least one row, same weekday as the target, strictly before it, and within
the rolling window.  (`GROUP BY` only produces rows for dates that occur
in the data.) -/
def histDates (rows : List PermitRow) (target window : Int) : List Int :=
  (dedupFS (rows.map (fun r => r.dig_date))).filter
    (fun d => d % 7 == target % 7 && decide (d < target) &&
      decide (target - window ≤ d))

/-- `AVG(total_permits)` over `historical_counts`, with the source's
`num_days == 0` guard (both averages are set to `0`). -/
def histAvgTotal (rows : List PermitRow) (target window : Int) : ℚ :=
  let ds := histDates rows target window
  if ds.length = 0 then 0
  else ((ds.map (fun d => (dailyTotalOn rows d : ℚ))).sum) / ds.length

def histAvgEmergency (rows : List PermitRow) (target window : Int) : ℚ :=
  let ds := histDates rows target window
  if ds.length = 0 then 0
  else ((ds.map (fun d => (dailyEmergencyOn rows d : ℚ))).sum) / ds.length

/-- Python `round(x, 1)`.  (Python rounds half to even while `round` on ℚ
rounds half up; the two agree except at exact midpoints, which none of
the verified claims touch.) -/
def round1 (q : ℚ) : ℚ := ((round (q * 10) : ℤ) : ℚ) / 10

/-- The inner `calc_percent_diff` of `get_day_of_week_comparison`
(lines 467–468): `round(((actual - avg) / avg * 100) if avg > 0 else 0, 1)`. -/
def calc_percent_diff (actual : Int) (avg : ℚ) : ℚ :=
  if avg > 0 then round1 (((actual : ℚ) - avg) / avg * 100) else 0

structure DayComparison where
  day_name : Int
  actual_total : Int
  actual_emergency : Int
  actual_regular : Int
  avg_total : ℚ
  avg_emergency : ℚ
  avg_regular : ℚ
  total_diff_percent : ℚ
  emergency_diff_percent : ℚ
  regular_diff_percent : ℚ
deriving DecidableEq, Repr

/-- `StatsGenerator.get_day_of_week_comparison` over an explicit record
set.  `day_name` (the SQL `DAYNAME`) is modelled as the day number mod 7;
`avg_regular` is computed by subtraction, exactly as in the source. -/
def get_day_of_week_comparison (rows : List PermitRow) (target window : Int) :
    DayComparison :=
  let targetRows := rows.filter (fun r => r.dig_date = target)
  let actual_total : Int := targetRows.length
  let actual_emergency : Int := (targetRows.filter (fun r => r.is_emergency)).length
  let avgT := histAvgTotal rows target window
  let avgE := histAvgEmergency rows target window
  { day_name := target % 7,
    actual_total := actual_total,
    actual_emergency := actual_emergency,
    actual_regular := actual_total - actual_emergency,
    avg_total := round1 avgT,
    avg_emergency := round1 avgE,
    avg_regular := round1 (avgT - avgE),
    total_diff_percent := calc_percent_diff actual_total avgT,
    emergency_diff_percent := calc_percent_diff actual_emergency avgE,
    regular_diff_percent := calc_percent_diff (actual_total - actual_emergency) (avgT - avgE) }

/-! ### `get_contractor_leaderboard` (`stats.py` lines 491–574) -/

/-- The `CASE WHEN contact_first_name = '' OR contact_first_name IS NULL
THEN contact_last_name ELSE contact_first_name || ' ' ||
contact_last_name END` expression. -/
def contractor_name (r : PermitRow) : String :=
  match r.contact_first_name with
  | none => r.contact_last_name.getD ""
  | some f =>
    if f = "" then r.contact_last_name.getD ""
    else f ++ " " ++ r.contact_last_name.getD ""

/-- `GROUP BY contractor_name` with `COUNT(*)`, groups in first-seen order. -/
def groupCounts (names : List String) : List (String × Nat) :=
  names.foldl (fun acc n =>
    if acc.any (fun p => p.1 == n)
    then acc.map (fun p => if p.1 == n then (p.1, p.2 + 1) else p)
    else acc ++ [(n, 1)]) []

/-- Stable insertion for descending sort by count: an element is placed
after every earlier element whose count is at least as large. -/
def insertDesc (x : String × Nat) : List (String × Nat) → List (String × Nat)
  | [] => [x]
  | y :: ys => if y.2 < x.2 then x :: y :: ys else y :: insertDesc x ys

/-- Descending stable sort by count.  Models both the SQL
`ORDER BY permit_count DESC` and Python's stable
`sorted(…, key=lambda x: x['count'], reverse=True)`; DuckDB leaves the
order of tied counts unspecified, and none of the verified claims depend
on it. -/
def sortCountDesc (l : List (String × Nat)) : List (String × Nat) :=
  l.foldl (fun acc x => insertDesc x acc) []

/-- One step of the Python post-processing loop: normalize the raw group
name and append the entry only when the normalized name is truthy
(`if name:`). -/
def lbAppend (acc : List (String × Nat)) (p : String × Nat) : List (String × Nat) :=
  let n := _normalize_name p.1
  if n ≠ "" then acc ++ [(n, p.2)] else acc

/-- The `contractor_counts` CTE before `ORDER BY`/`LIMIT`: yesterday's rows
with a non-null, non-empty `contact_last_name`, grouped by the raw
contractor name with their counts. -/
def rawGroupsOn (rows : List PermitRow) (yesterday : Int) : List (String × Nat) :=
  let filtered := rows.filter (fun r =>
    r.dig_date == yesterday &&
    (match r.contact_last_name with
     | some l => !(l == "")
     | none => false))
  groupCounts (filtered.map contractor_name)

/-- `StatsGenerator.get_contractor_leaderboard` over an explicit record
set and (Chicago) yesterday.  The SQL query filters to yesterday's rows
with a non-null, non-empty `contact_last_name`, groups by the **raw**
contractor name, orders by count and applies `LIMIT`; only then does the
Python layer normalize each name, drop falsy ones, re-sort and truncate. -/
def get_contractor_leaderboard (rows : List PermitRow) (yesterday : Int)
    (limit : Nat) : List (String × Nat) :=
  let groups2 := (rawGroupsOn rows yesterday).filter (fun p => 0 < p.2)
  let top := (sortCountDesc groups2).take limit
  let lb := top.foldl lbAppend []
  (sortCountDesc lb).take limit

/-! ### Newcomer detection -/

/-- The canonical (post-normalization) name of a row's contractor. -/
def canonOf (r : PermitRow) : String := _normalize_name (contractor_name r)

/-- Modelled from the spec: newcomer detection (`get_newcomer`, §4.3/§8)
has no implementation under `src/`; per the specification, a qualifier is
a canonical contractor name present in the target-date records and — the
comparison being made on post-normalization canonical names — absent from
all records strictly before the target date. -/
def newcomerCandidates (rows : List PermitRow) (target : Int) : List String :=
  let todayCanon := dedupFS ((rows.filter (fun r => r.dig_date = target)).map canonOf)
  let priorCanon := (rows.filter (fun r => r.dig_date < target)).map canonOf
  todayCanon.filter (fun c => !(priorCanon.contains c))

/-- Modelled from the spec: a qualifier's ticket count on the target date. -/
def targetCount (rows : List PermitRow) (target : Int) (c : String) : Nat :=
  ((rows.filter (fun r => r.dig_date = target)).filter
    (fun r => canonOf r == c)).length

/-- First element attaining the maximum of `f` (ties keep the earlier). -/
def argmaxBy (f : α → Nat) : List α → Option α
  | [] => none
  | a :: as =>
    match argmaxBy f as with
    | none => some a
    | some b => if f b > f a then some b else some a

/-- Modelled from the spec: `get_newcomer` — among the qualifiers, the one
with the highest target-date ticket count is selected; `"none"` is
returned when no contractor qualifies. -/
def get_newcomer (rows : List PermitRow) (target : Int) : String :=
  match argmaxBy (targetCount rows target) (newcomerCandidates rows target) with
  | some c => c
  | none => "none"

/-- Modelled from the spec (§4.3): the top-N ranking by emergency ticket
count, grouped by canonical contractor name — one of the three
independent leaderboards the specification describes.  No such ranking is
computed anywhere under `src/`; this definition follows the spec's words
and exists to be compared with the code's single output list. -/
def specEmergencyTopN (rows : List PermitRow) (target : Int) (limit : Nat) :
    List (String × Nat) :=
  let todays := rows.filter (fun r => r.dig_date = target)
  let canon := dedupFS (todays.map canonOf)
  let counts := canon.map (fun c =>
    (c, ((todays.filter (fun r => r.is_emergency)).filter
          (fun r => canonOf r == c)).length))
  (sortCountDesc (counts.filter (fun p => 0 < p.2))).take limit

/-! ### Concrete record sets used by individual claims -/

/-- Raw rows `{"COMED": 5, "COM ED": 3, "COM-ED": 2}` on the target date. -/
def rowsClaim2 : List PermitRow :=
  List.replicate 5 ⟨none, some "COMED", 0, false, "MILWAUKEE"⟩ ++
  List.replicate 3 ⟨none, some "COM ED", 0, false, "MILWAUKEE"⟩ ++
  List.replicate 2 ⟨none, some "COM-ED", 0, false, "MILWAUKEE"⟩

/-- ALPHA: three regular tickets; BRAVO: two emergency tickets. -/
def rowsClaim5 : List PermitRow :=
  [⟨none, some "ALPHA", 0, false, "A"⟩, ⟨none, some "ALPHA", 0, false, "B"⟩,
   ⟨none, some "ALPHA", 0, false, "C"⟩, ⟨none, some "BRAVO", 0, true, "D"⟩,
   ⟨none, some "BRAVO", 0, true, "E"⟩]

/-- Two raw contractor groups on the target date, one of which (`"***"`,
two tickets) normalizes to the empty string. -/
def rowsClaim10 : List PermitRow :=
  [⟨none, some "ACME", 0, false, "A"⟩, ⟨none, some "***", 0, false, "A"⟩,
   ⟨none, some "***", 0, false, "B"⟩]

/-- ComEd appears on day 0 as `"COMED"` and on day 5 under the different
raw spelling `"COM-ED"`; `"NEWDIG LLC"` first appears on day 5. -/
def rowsClaim4 : List PermitRow :=
  [⟨none, some "COMED", 0, false, "A"⟩, ⟨none, some "COM-ED", 5, false, "A"⟩,
   ⟨none, some "NEWDIG LLC", 5, false, "A"⟩,
   ⟨none, some "NEWDIG LLC", 5, false, "B"⟩]

/-! ## Lemmas -/

/-! ### `argmaxBy`, `dedupFS`, sorting and the leaderboard fold -/

lemma argmaxBy_isSome (f : α → Nat) (a : α) (as : List α) :
    (argmaxBy f (a :: as)).isSome := by
  cases h : argmaxBy f as <;> simp [argmaxBy, h] <;> split <;> simp

lemma argmaxBy_eq_none_iff (f : α → Nat) (l : List α) :
    argmaxBy f l = none ↔ l = [] := by
  cases l with
  | nil => simp [argmaxBy]
  | cons a as =>
    simp only [argmaxBy]
    cases h : argmaxBy f as <;> simp <;> split <;> simp

lemma argmaxBy_mem (f : α → Nat) {l : List α} {a : α}
    (h : argmaxBy f l = some a) : a ∈ l := by
  induction l with
  | nil => simp [argmaxBy] at h
  | cons b bs ih =>
    simp only [argmaxBy] at h
    cases hbs : argmaxBy f bs with
    | none => rw [hbs] at h; simp at h; simp [h]
    | some c =>
      rw [hbs] at h
      by_cases hlt : f c > f b
      · simp [hlt] at h; subst h; exact List.mem_cons_of_mem _ (ih hbs)
      · simp [hlt] at h; simp [h]

lemma argmaxBy_le (f : α → Nat) {l : List α} {a : α}
    (h : argmaxBy f l = some a) : ∀ x ∈ l, f x ≤ f a := by
  induction l generalizing a with
  | nil => simp [argmaxBy] at h
  | cons b bs ih =>
    simp only [argmaxBy] at h
    cases hbs : argmaxBy f bs with
    | none =>
      rw [hbs] at h; simp at h
      rw [argmaxBy_eq_none_iff] at hbs
      subst hbs; subst h; simp
    | some c =>
      rw [hbs] at h
      by_cases hlt : f c > f b
      · simp [hlt] at h; subst h
        intro x hx
        rcases List.mem_cons.mp hx with rfl | hx
        · exact le_of_lt hlt
        · exact ih hbs x hx
      · simp [hlt] at h; subst h
        intro x hx
        rcases List.mem_cons.mp hx with rfl | hx
        · exact le_refl _
        · exact le_trans (ih hbs x hx) (not_lt.mp hlt)

lemma mem_of_mem_dedupFSAux [DecidableEq α] {a : α} :
    ∀ {seen l : List α}, a ∈ dedupFSAux seen l → a ∈ l := by
  intro seen l
  induction l generalizing seen with
  | nil => simp [dedupFSAux]
  | cons b bs ih =>
    simp only [dedupFSAux]
    split
    · intro h; exact List.mem_cons_of_mem _ (ih h)
    · intro h
      rcases List.mem_cons.mp h with rfl | h
      · simp
      · exact List.mem_cons_of_mem _ (ih h)

lemma mem_of_mem_dedupFS [DecidableEq α] {a : α} {l : List α}
    (h : a ∈ dedupFS l) : a ∈ l := mem_of_mem_dedupFSAux h

lemma mem_insertDesc {x y : String × Nat} {l : List (String × Nat)} :
    x ∈ insertDesc y l ↔ x = y ∨ x ∈ l := by
  induction l with
  | nil => simp [insertDesc]
  | cons z zs ih =>
    simp only [insertDesc]
    split
    · simp
    · simp only [List.mem_cons, ih]
      tauto

lemma mem_sortCountDesc_fold {x : String × Nat} :
    ∀ {l acc : List (String × Nat)},
      x ∈ l.foldl (fun a y => insertDesc y a) acc → x ∈ acc ∨ x ∈ l := by
  intro l
  induction l with
  | nil => intro acc h; exact Or.inl h
  | cons y ys ih =>
    intro acc h
    simp only [List.foldl_cons] at h
    rcases ih h with h1 | h1
    · rcases mem_insertDesc.mp h1 with rfl | h2
      · simp
      · exact Or.inl h2
    · simp [h1]

lemma mem_of_mem_sortCountDesc {x : String × Nat} {l : List (String × Nat)}
    (h : x ∈ sortCountDesc l) : x ∈ l := by
  rcases mem_sortCountDesc_fold h with h1 | h1
  · simp at h1
  · exact h1

lemma lbAppend_fold_names :
    ∀ (top acc : List (String × Nat)), (∀ p ∈ acc, p.1 ≠ "") →
      ∀ p ∈ top.foldl lbAppend acc, p.1 ≠ "" := by
  intro top
  induction top with
  | nil => intro acc hacc p hp; exact hacc p hp
  | cons q qs ih =>
    intro acc hacc p hp
    simp only [List.foldl_cons] at hp
    refine ih _ ?_ p hp
    intro r hr
    simp only [lbAppend] at hr
    split at hr
    · rcases List.mem_append.mp hr with h1 | h1
      · exact hacc r h1
      · simp at h1
        subst h1
        simpa using by assumption
    · exact hacc r hr

lemma get_contractor_leaderboard_eq (rows : List PermitRow) (yd : Int) (limit : Nat) :
    get_contractor_leaderboard rows yd limit =
      (sortCountDesc
        ((((sortCountDesc ((rawGroupsOn rows yd).filter (fun p => 0 < p.2))).take
            limit).foldl lbAppend []))).take limit := rfl

lemma dow_total_diff (rows : List PermitRow) (t w : Int) :
    (get_day_of_week_comparison rows t w).total_diff_percent =
      calc_percent_diff ((rows.filter (fun r => r.dig_date = t)).length : Int)
        (histAvgTotal rows t w) := rfl

lemma dow_emergency_diff (rows : List PermitRow) (t w : Int) :
    (get_day_of_week_comparison rows t w).emergency_diff_percent =
      calc_percent_diff
        (((rows.filter (fun r => r.dig_date = t)).filter
            (fun r => r.is_emergency)).length : Int)
        (histAvgEmergency rows t w) := rfl

lemma dow_regular_diff (rows : List PermitRow) (t w : Int) :
    (get_day_of_week_comparison rows t w).regular_diff_percent =
      calc_percent_diff
        (((rows.filter (fun r => r.dig_date = t)).length : Int) -
          (((rows.filter (fun r => r.dig_date = t)).filter
              (fun r => r.is_emergency)).length : Int))
        (histAvgTotal rows t w - histAvgEmergency rows t w) := rfl

lemma calc_percent_diff_of_avg_eq_zero (a : Int) {q : ℚ} (h : q = 0) :
    calc_percent_diff a q = 0 := by
  subst h; simp [calc_percent_diff]

/-! ### Runs of separators under `collapseBy` -/

lemma collapseByAux_cons (p : Char → Bool) (b : Bool) (a : Char) (t : Str) :
    collapseByAux p b (a :: t) =
      if p a then
        (if b then collapseByAux p true t else ' ' :: collapseByAux p true t)
      else a :: collapseByAux p false t := rfl

lemma mem_collapseByAux_of_mem (p : Char → Bool) {c : Char} (hc : p c = false) :
    ∀ (s : Str) (b : Bool), c ∈ s → c ∈ collapseByAux p b s := by
  intro s
  induction s with
  | nil => simp
  | cons a t ih =>
    intro b hmem
    by_cases hp : p a = true
    · have hct : c ∈ t := by
        rcases List.mem_cons.mp hmem with rfl | h
        · rw [hp] at hc; cases hc
        · exact h
      rw [collapseByAux_cons, if_pos hp]
      cases b
      · exact List.mem_cons_of_mem _ (ih true hct)
      · exact ih true hct
    · rw [collapseByAux_cons, if_neg hp]
      rcases List.mem_cons.mp hmem with rfl | h
      · exact List.mem_cons_self _ _
      · exact List.mem_cons_of_mem _ (ih false h)

lemma mem_of_mem_collapseByAux (p : Char → Bool) {c : Char} :
    ∀ (s : Str) (b : Bool), c ∈ collapseByAux p b s → c ∈ s ∨ c = ' ' := by
  intro s
  induction s with
  | nil => simp [collapseByAux]
  | cons a t ih =>
    intro b h
    by_cases hp : p a = true
    · cases b with
      | true =>
        simp only [collapseByAux, hp, if_pos] at h
        rcases ih true h with h1 | h1
        · exact Or.inl (List.mem_cons_of_mem _ h1)
        · exact Or.inr h1
      | false =>
        simp only [collapseByAux, hp, if_pos] at h
        rcases List.mem_cons.mp h with rfl | h1
        · exact Or.inr rfl
        · rcases ih true h1 with h2 | h2
          · exact Or.inl (List.mem_cons_of_mem _ h2)
          · exact Or.inr h2
    · simp only [collapseByAux, hp] at h
      rcases List.mem_cons.mp h with rfl | h1
      · exact Or.inl (List.mem_cons_self _ _)
      · rcases ih false h1 with h2 | h2
        · exact Or.inl (List.mem_cons_of_mem _ h2)
        · exact Or.inr h2

lemma collapseByAux_false_ne_nil (p : Char → Bool) (a : Char) (t : Str) :
    collapseByAux p false (a :: t) ≠ [] := by
  by_cases hp : p a = true <;> simp [collapseByAux, hp]

lemma head?_collapseBy (p : Char → Bool) (s : Str) :
    (collapseBy p s).head? = s.head?.map (fun c => if p c then ' ' else c) := by
  cases s with
  | nil => rfl
  | cons a t => by_cases hp : p a = true <;> simp [collapseBy, collapseByAux, hp]

lemma getLast?_cons_of_ne_nil {a : Char} {l : Str} (h : l ≠ []) :
    (a :: l).getLast? = l.getLast? := by
  obtain ⟨y, ys, rfl⟩ := List.exists_cons_of_ne_nil h
  exact List.getLast?_cons_cons

lemma getLast?_collapseByAux_of_not (p : Char → Bool) {c : Char}
    (hc : p c = false) :
    ∀ (s : Str) (b : Bool), s.getLast? = some c →
      (collapseByAux p b s).getLast? = some c := by
  intro s
  induction s with
  | nil => simp
  | cons a t ih =>
    intro b hl
    cases t with
    | nil =>
      simp at hl
      subst hl
      cases b <;> simp [collapseByAux, hc]
    | cons x xs =>
      rw [List.getLast?_cons_cons] at hl
      have h2true := ih true hl
      have h2false := ih false hl
      rw [collapseByAux_cons]
      by_cases hp : p a = true
      · rw [if_pos hp]
        cases b
        · rw [if_neg (by simp)]
          rw [getLast?_cons_of_ne_nil (by intro he; rw [he] at h2true; cases h2true)]
          exact h2true
        · rw [if_pos rfl]
          exact h2true
      · rw [if_neg hp]
        rw [getLast?_cons_of_ne_nil (collapseByAux_false_ne_nil p x xs)]
        exact h2false

lemma getLast?_collapseByAux_of_sep (p : Char → Bool) {c : Char}
    (hc : p c = true) :
    ∀ (s : Str) (b : Bool), s.getLast? = some c →
      (collapseByAux p b s).getLast? = some ' ' ∨ collapseByAux p b s = [] := by
  intro s
  induction s with
  | nil => simp
  | cons a t ih =>
    intro b hl
    cases t with
    | nil =>
      simp at hl
      subst hl
      cases b <;> simp [collapseByAux, hc]
    | cons x xs =>
      rw [List.getLast?_cons_cons] at hl
      rw [collapseByAux_cons]
      by_cases hp : p a = true
      · rw [if_pos hp]
        cases b
        · rw [if_neg (by simp)]
          rcases ih true hl with h1 | h1
          · left
            rw [getLast?_cons_of_ne_nil (by intro he; rw [he] at h1; cases h1)]
            exact h1
          · left; rw [h1]; rfl
        · rw [if_pos rfl]
          exact ih true hl
      · rw [if_neg hp]
        have hnn : collapseByAux p false (x :: xs) ≠ [] :=
          collapseByAux_false_ne_nil p x xs
        rcases ih false hl with h1 | h1
        · left
          rw [getLast?_cons_of_ne_nil hnn]
          exact h1
        · exact absurd h1 hnn

/-- Collapsing whitespace first does not change the result of collapsing
hyphens and whitespace. -/
lemma collapseHS_collapseWS_aux (s : Str) :
    (∀ b, collapseByAux isHS true (collapseByAux pyIsSpace b s) =
      collapseByAux isHS true s) ∧
    collapseByAux isHS false (collapseByAux pyIsSpace false s) =
      collapseByAux isHS false s := by
  induction s with
  | nil => simp [collapseByAux]
  | cons c cs ih =>
    obtain ⟨ih1, ih2⟩ := ih
    by_cases hws : pyIsSpace c = true
    · have hhs : isHS c = true := by simp [isHS, hws]
      constructor
      · intro b
        cases b <;>
          simp [collapseByAux, hws, hhs, ih1, show isHS ' ' = true by decide]
      · simp [collapseByAux, hws, hhs, ih1, show isHS ' ' = true by decide]
    · by_cases hhs : isHS c = true
      · constructor
        · intro b; simp [collapseByAux, hws, hhs, ih1]
        · simp [collapseByAux, hws, hhs, ih1]
      · constructor
        · intro b; simp [collapseByAux, hws, hhs, ih2]
        · simp [collapseByAux, hws, hhs, ih2]

lemma collapseHS_collapseWS (s : Str) : collapseHS (collapseWS s) = collapseHS s :=
  (collapseHS_collapseWS_aux s).2

/-! ### Stripping and asterisk removal as identities -/

lemma dropLeadingWS_eq_self {l : Str} {a : Char} (h : l.head? = some a)
    (ha : pyIsSpace a = false) : dropLeadingWS l = l := by
  cases l with
  | nil => rfl
  | cons x t =>
    simp at h
    subst h
    simp [dropLeadingWS, ha]

lemma pyStrip_eq_self {l : Str} {a b : Char}
    (h1 : l.head? = some a) (ha : pyIsSpace a = false)
    (h2 : l.getLast? = some b) (hb : pyIsSpace b = false) : pyStrip l = l := by
  unfold pyStrip
  rw [dropLeadingWS_eq_self h1 ha]
  rw [dropLeadingWS_eq_self (by rw [List.head?_reverse]; exact h2) hb]
  exact List.reverse_reverse l

lemma dropTrailingStars_eq_self {s : Str} (h : '*' ∉ s) :
    dropTrailingStars s = s := by
  unfold dropTrailingStars
  have : s.reverse.dropWhile (fun c => c = '*') = s.reverse := by
    cases hr : s.reverse with
    | nil => rfl
    | cons a t =>
      rw [List.dropWhile_cons]
      have ha : a ∈ s := List.mem_reverse.mp (hr ▸ List.mem_cons_self a t)
      rw [if_neg (by simp; intro he; exact h (he ▸ ha))]
  rw [this, List.reverse_reverse]

lemma removeStars_eq_self {s : Str} (h : '*' ∉ s) : removeStars s = s := by
  unfold removeStars
  rw [List.filter_eq_self]
  intro a ha
  simp
  intro he
  exact h (he ▸ ha)

/-! ### The parenthetical passes do nothing without an opening parenthesis -/

lemma litMatcher_nil_eq_none {pt : Str} :
    litMatcher ('(' :: pt) [] = none := by
  simp [litMatcher, List.isPrefixOf]

lemma litMatcher_cons_eq_none {pt : Str} {c : Char} (hc : c ≠ '(') (t : Str) :
    litMatcher ('(' :: pt) (c :: t) = none := by
  simp [litMatcher, List.isPrefixOf]
  intro he
  exact absurd he.symm hc

lemma matchSLNum_cons_eq_none {c : Char} (hc : c ≠ '(') (t : Str) :
    matchSLNum (c :: t) = none := by
  rw [matchSLNum.eq_def]
  split
  · rename_i heq
    rw [List.cons.injEq] at heq
    exact absurd heq.1 hc
  · rfl

lemma matchResidualParen_cons_eq_none {c : Char} (hc : c ≠ '(') (t : Str) :
    matchResidualParen (c :: t) = none := by
  rw [matchResidualParen.eq_def]
  split
  · rename_i heq
    rw [List.cons.injEq] at heq
    exact absurd heq.1 hc
  · rfl

lemma searchFirst_eq_none {m : Str → Option (Str × Str)}
    (hnil : m [] = none) (hm : ∀ c t, c ≠ '(' → m (c :: t) = none) :
    ∀ s : Str, '(' ∉ s → searchFirst m s = none := by
  intro s
  induction s with
  | nil => intro _; simp [searchFirst, hnil]
  | cons c cs ih =>
    intro h
    have hc : c ≠ '(' := fun he => h (he ▸ List.mem_cons_self c cs)
    simp [searchFirst, hm c cs hc, ih (fun hx => h (List.mem_cons_of_mem _ hx))]

lemma removeAllAux_eq_self {m : Str → Option (Str × Str)}
    (hm : ∀ c t, c ≠ '(' → m (c :: t) = none) :
    ∀ (fuel : Nat) (s : Str), '(' ∉ s → removeAllAux m fuel s = s := by
  intro fuel
  induction fuel with
  | zero => intro s _; rfl
  | succ n ih =>
    intro s h
    cases s with
    | nil => rfl
    | cons c cs =>
      have hc : c ≠ '(' := fun he => h (he ▸ List.mem_cons_self c cs)
      simp [removeAllAux, hm c cs hc,
        ih cs (fun hx => h (List.mem_cons_of_mem _ hx))]

lemma removeAll_eq_self {m : Str → Option (Str × Str)}
    (hm : ∀ c t, c ≠ '(' → m (c :: t) = none) {s : Str} (h : '(' ∉ s) :
    removeAll m s = s :=
  removeAllAux_eq_self hm _ s h

lemma extractPreserved_id {s : Str} (h : '(' ∉ s) :
    extractPreservedAux PRESERVE_SUFFIXES s = ([], s) := by
  have h1 : searchFirst matchSLNum s = none :=
    searchFirst_eq_none rfl (fun c t hc => matchSLNum_cons_eq_none hc t) s h
  have h2 : searchFirst (litMatcher "(SL)".data) s = none :=
    searchFirst_eq_none (by decide)
      (fun c t hc => litMatcher_cons_eq_none hc t) s h
  have h3 : searchFirst (litMatcher "(SEAL)".data) s = none :=
    searchFirst_eq_none (by decide)
      (fun c t hc => litMatcher_cons_eq_none hc t) s h
  have h4 : searchFirst (litMatcher "(OVERSIZE)".data) s = none :=
    searchFirst_eq_none (by decide)
      (fun c t hc => litMatcher_cons_eq_none hc t) s h
  simp [PRESERVE_SUFFIXES, extractPreservedAux, h1, h2, h3, h4]

lemma removeSuffixFold_id {s : Str} (h : '(' ∉ s) :
    REMOVE_SUFFIXES.foldl (fun s pat => removeAll (litMatcher pat.data) s) s = s := by
  simp only [REMOVE_SUFFIXES, List.foldl_cons, List.foldl_nil]
  rw [removeAll_eq_self (fun c t hc => litMatcher_cons_eq_none hc t) h,
    removeAll_eq_self (fun c t hc => litMatcher_cons_eq_none hc t) h,
    removeAll_eq_self (fun c t hc => litMatcher_cons_eq_none hc t) h,
    removeAll_eq_self (fun c t hc => litMatcher_cons_eq_none hc t) h,
    removeAll_eq_self (fun c t hc => litMatcher_cons_eq_none hc t) h,
    removeAll_eq_self (fun c t hc => litMatcher_cons_eq_none hc t) h]

/-! ### Table facts for the amended alias-totality claim -/

lemma headOK_unpack {kk : Str} (h : headOK kk = true) :
    ∃ a, kk.head? = some a ∧ isHS a = false := by
  cases hh : kk.head? with
  | none => simp [headOK, hh] at h
  | some a => exact ⟨a, rfl, by simpa [headOK, hh] using h⟩

lemma lastOK_unpack {kk : Str} (h : lastOK kk = true) :
    ∃ a, kk.getLast? = some a ∧ isHS a = false := by
  cases hh : kk.getLast? with
  | none => simp [lastOK, hh] at h
  | some a => exact ⟨a, rfl, by simpa [lastOK, hh] using h⟩

lemma keyShape_unpack {kk : Str} (h : keyShape kk = true) :
    kk ≠ [] ∧ (∀ c ∈ kk, c ≠ '*') ∧
      (∃ a, kk.head? = some a ∧ isHS a = false) ∧
      (∃ b, kk.getLast? = some b ∧ isHS b = false) := by
  simp only [keyShape, Bool.and_eq_true] at h
  obtain ⟨⟨⟨hne, hstar⟩, hh⟩, hl⟩ := h
  refine ⟨by simpa using hne, ?_, headOK_unpack hh, lastOK_unpack hl⟩
  intro c hc
  have := List.all_eq_true.mp hstar c hc
  simpa using this

lemma mappings_keyShape :
    ∀ p ∈ NAME_MAPPINGS,
      keyShape p.1.data = true ∧ pyUpper p.1.data = p.1.data ∧ p.2.data ≠ [] := by
  decide

lemma mappings_consistent :
    ∀ p ∈ NAME_MAPPINGS, ∀ q ∈ NAME_MAPPINGS,
      collapseHS p.1.data = collapseHS q.1.data → p.2 = q.2 := by
  decide

/-! ### Survival of a solid character through the pipeline tail -/

lemma pyUpperChar_isSpace (c : Char) : pyIsSpace (pyUpperChar c) = pyIsSpace c := by
  unfold pyUpperChar; split <;> rfl

lemma pyUpperChar_ne_star {c : Char} (h : c ≠ '*') : pyUpperChar c ≠ '*' := by
  unfold pyUpperChar; split <;> first | decide | exact h

lemma pyUpperChar_ne_paren {c : Char} (h : c ≠ '(') : pyUpperChar c ≠ '(' := by
  unfold pyUpperChar; split <;> first | decide | exact h

lemma mem_dropWhileStar_of_mem {c : Char} {l : Str} (hm : c ∈ l) (hc : c ≠ '*') :
    c ∈ l.dropWhile (fun x => x = '*') := by
  induction l with
  | nil => cases hm
  | cons a t ih =>
    rw [List.dropWhile_cons]
    by_cases ha : a = '*'
    · rw [if_pos (by simp [ha])]
      rcases List.mem_cons.mp hm with rfl | h
      · exact absurd ha hc
      · exact ih h
    · rw [if_neg (by simp [ha])]
      exact hm

lemma mem_dropTrailingStars_of_mem {c : Char} {l : Str} (hm : c ∈ l) (hc : c ≠ '*') :
    c ∈ dropTrailingStars l := by
  unfold dropTrailingStars
  rw [List.mem_reverse]
  exact mem_dropWhileStar_of_mem (List.mem_reverse.mpr hm) hc

lemma mem_of_mem_dropTrailingStars {c : Char} {l : Str} (hm : c ∈ dropTrailingStars l) :
    c ∈ l := by
  unfold dropTrailingStars at hm
  rw [List.mem_reverse] at hm
  exact List.mem_reverse.mp ((List.dropWhile_sublist _).subset hm)

lemma mem_removeStars_of_mem {c : Char} {l : Str} (hm : c ∈ l) (hc : c ≠ '*') :
    c ∈ removeStars l := by
  unfold removeStars
  exact List.mem_filter.mpr ⟨hm, by simp [hc]⟩

lemma mem_of_mem_removeStars {c : Char} {l : Str} (hm : c ∈ removeStars l) : c ∈ l :=
  (List.mem_filter.mp hm).1

lemma mem_dropLeadingWS_of_mem {c : Char} {l : Str} (hm : c ∈ l)
    (hc : pyIsSpace c = false) : c ∈ dropLeadingWS l := by
  induction l with
  | nil => cases hm
  | cons a t ih =>
    unfold dropLeadingWS
    by_cases ha : pyIsSpace a = true
    · rw [if_pos ha]
      rcases List.mem_cons.mp hm with rfl | h
      · rw [ha] at hc; cases hc
      · exact ih h
    · rw [if_neg ha]
      exact hm

lemma mem_of_mem_dropLeadingWS {c : Char} {l : Str} (hm : c ∈ dropLeadingWS l) :
    c ∈ l := by
  induction l with
  | nil => simpa [dropLeadingWS] using hm
  | cons a t ih =>
    unfold dropLeadingWS at hm
    by_cases ha : pyIsSpace a = true
    · rw [if_pos ha] at hm
      exact List.mem_cons_of_mem _ (ih hm)
    · rwa [if_neg ha] at hm

lemma mem_pyStrip_of_mem {c : Char} {l : Str} (hm : c ∈ l)
    (hc : pyIsSpace c = false) : c ∈ pyStrip l := by
  unfold pyStrip
  rw [List.mem_reverse]
  exact mem_dropLeadingWS_of_mem
    (List.mem_reverse.mpr (mem_dropLeadingWS_of_mem hm hc)) hc

lemma mem_of_mem_pyStrip {c : Char} {l : Str} (hm : c ∈ pyStrip l) : c ∈ l := by
  unfold pyStrip at hm
  rw [List.mem_reverse] at hm
  exact mem_of_mem_dropLeadingWS
    (List.mem_reverse.mp (mem_of_mem_dropLeadingWS hm))

lemma pyStrip_ne_nil_of_solid {l : Str} (h : ∃ c ∈ l, pyIsSpace c = false) :
    pyStrip l ≠ [] := by
  obtain ⟨c, hm, hc⟩ := h
  exact List.ne_nil_of_mem (mem_pyStrip_of_mem hm hc)



lemma replaceStrAux_solid {o : Char} {orest new : Str}
    (hnew : ∃ c ∈ new, pyIsSpace c = false) :
    ∀ (fuel : Nat) (s : Str), (∃ c ∈ s, pyIsSpace c = false) →
      ∃ c ∈ replaceStrAux o orest new fuel s, pyIsSpace c = false := by
  intro fuel
  induction fuel with
  | zero => intro s h; exact h
  | succ n ih =>
    intro s h
    cases s with
    | nil => simpa using h
    | cons c cs =>
      unfold replaceStrAux
      by_cases hp : (o :: orest).isPrefixOf (c :: cs) = true
      · rw [if_pos hp]
        obtain ⟨d, hd, hds⟩ := hnew
        exact ⟨d, List.mem_append_left _ hd, hds⟩
      · rw [if_neg hp]
        obtain ⟨d, hd, hds⟩ := h
        rcases List.mem_cons.mp hd with rfl | hdt
        · exact ⟨d, List.mem_cons_self _ _, hds⟩
        · obtain ⟨e, he, hes⟩ := ih cs ⟨d, hdt, hds⟩
          exact ⟨e, List.mem_cons_of_mem _ he, hes⟩

lemma replaceStr_solid {o : Char} {orest new s : Str}
    (hnew : ∃ c ∈ new, pyIsSpace c = false)
    (h : ∃ c ∈ s, pyIsSpace c = false) :
    ∃ c ∈ replaceStr o orest new s, pyIsSpace c = false :=
  replaceStrAux_solid hnew s.length s h

lemma collapseWS_solid {s : Str} (h : ∃ c ∈ s, pyIsSpace c = false) :
    ∃ c ∈ collapseWS s, pyIsSpace c = false := by
  obtain ⟨c, hm, hc⟩ := h
  exact ⟨c, mem_collapseByAux_of_mem pyIsSpace hc s false hm, hc⟩

lemma splitWSAux_ne_nil :
    ∀ (s acc : Str), (∃ c ∈ s, pyIsSpace c = false) ∨ acc ≠ [] →
      splitWSAux acc s ≠ [] := by
  intro s
  induction s with
  | nil =>
    intro acc h
    rcases h with h | h
    · simpa using h
    · simp [splitWSAux, List.isEmpty_iff, h]
  | cons c cs ih =>
    intro acc h
    unfold splitWSAux
    by_cases hc : pyIsSpace c = true
    · rw [if_pos hc]
      by_cases ha : acc.isEmpty = true
      · rw [if_pos ha]
        apply ih
        left
        rcases h with ⟨d, hd, hds⟩ | h
        · rcases List.mem_cons.mp hd with rfl | hdt
          · rw [hc] at hds; cases hds
          · exact ⟨d, hdt, hds⟩
        · rw [List.isEmpty_iff] at ha
          exact absurd ha h
      · rw [if_neg ha]
        simp
    · rw [if_neg hc]
      apply ih
      right
      simp

lemma splitWSAux_words :
    ∀ (s acc : Str), (∀ c ∈ acc, pyIsSpace c = false) →
      ∀ w ∈ splitWSAux acc s, w ≠ [] ∧ ∀ c ∈ w, pyIsSpace c = false := by
  intro s
  induction s with
  | nil =>
    intro acc hacc w hw
    unfold splitWSAux at hw
    by_cases ha : acc.isEmpty = true
    · rw [if_pos ha] at hw; cases hw
    · rw [if_neg ha] at hw
      simp at hw
      subst hw
      rw [List.isEmpty_iff] at ha
      constructor
      · simpa using ha
      · intro c hc
        exact hacc c (List.mem_reverse.mp hc)
  | cons c cs ih =>
    intro acc hacc w hw
    unfold splitWSAux at hw
    by_cases hc : pyIsSpace c = true
    · rw [if_pos hc] at hw
      by_cases ha : acc.isEmpty = true
      · rw [if_pos ha] at hw
        exact ih [] (by simp) w hw
      · rw [if_neg ha] at hw
        rcases List.mem_cons.mp hw with rfl | hw2
        · rw [List.isEmpty_iff] at ha
          refine ⟨by simpa using ha, ?_⟩
          intro d hd
          exact hacc d (List.mem_reverse.mp hd)
        · exact ih [] (by simp) w hw2
    · rw [if_neg hc] at hw
      refine ih (c :: acc) ?_ w hw
      intro d hd
      rcases List.mem_cons.mp hd with rfl | hdt
      · simpa using hc
      · exact hacc d hdt

lemma splitWS_ne_nil {s : Str} (h : ∃ c ∈ s, pyIsSpace c = false) :
    splitWS s ≠ [] :=
  splitWSAux_ne_nil s [] (Or.inl h)

lemma splitWS_words {s : Str} :
    ∀ w ∈ splitWS s, w ≠ [] ∧ ∀ c ∈ w, pyIsSpace c = false :=
  splitWSAux_words s [] (by simp)

lemma joinSep_mem_left {sep w : Str} {rest : List Str} {c : Char} (hc : c ∈ w) :
    c ∈ joinSep sep (w :: rest) := by
  cases rest with
  | nil => exact hc
  | cons x r =>
    unfold joinSep
    exact List.mem_append_left _ (List.mem_append_left _ hc)



lemma word_replacements_ok :
    ∀ r ∈ WORD_REPLACEMENTS, r.2.2.data ≠ [] ∧
      ∀ c ∈ r.2.2.data, pyIsSpace c = false := by
  decide

lemma word_capitalizations_ok :
    ∀ p ∈ WORD_CAPITALIZATIONS, ∃ c ∈ p.2.data, pyIsSpace c = false := by
  decide

lemma applyWordRepl_ok {w : Str} (hne : w ≠ [])
    (hws : ∀ c ∈ w, pyIsSpace c = false) :
    applyWordRepl w ≠ [] ∧ ∀ c ∈ applyWordRepl w, pyIsSpace c = false := by
  unfold applyWordRepl
  cases hfind : WORD_REPLACEMENTS.find?
      (fun r => w == r.1.data || (r.2.1 && w == r.1.data ++ ['.'])) with
  | none => exact ⟨hne, hws⟩
  | some r =>
    exact word_replacements_ok r (List.mem_of_find?_eq_some hfind)

lemma pyCapitalize_solid {w : Str} (hne : w ≠ [])
    (hws : ∀ c ∈ w, pyIsSpace c = false) :
    ∃ c ∈ pyCapitalize w, pyIsSpace c = false := by
  cases w with
  | nil => exact absurd rfl hne
  | cons c cs =>
    refine ⟨pyUpperChar c, List.mem_cons_self _ _, ?_⟩
    rw [pyUpperChar_isSpace]
    exact hws c (List.mem_cons_self _ _)

lemma splitHyAux_length :
    ∀ (s acc : Str), (splitHyAux acc s).length =
      (s.filter (fun c => c = '-')).length + 1 := by
  intro s
  induction s with
  | nil => intro acc; simp [splitHyAux]
  | cons c cs ih =>
    intro acc
    unfold splitHyAux
    by_cases hc : c = '-'
    · subst hc
      simp [List.filter_cons, ih]
    · rw [if_neg hc]
      rw [List.filter_cons, if_neg (by simp [hc])]
      exact ih (c :: acc)

lemma capitalizeWord_solid (i : Nat) {w : Str} (hne : w ≠ [])
    (hws : ∀ c ∈ w, pyIsSpace c = false) :
    ∃ c ∈ capitalizeWord i w, pyIsSpace c = false := by
  unfold capitalizeWord
  by_cases h1 : (w.length ≤ 3 && pyIsUpperStr w && (findCap w).isNone) = true
  · rw [if_pos h1]
    obtain ⟨c, hc⟩ := List.exists_mem_of_ne_nil w hne
    exact ⟨c, hc, hws c hc⟩
  · rw [if_neg h1]
    by_cases h2 : "MC".data.isPrefixOf (pyUpper w) = true
    · rw [if_pos h2]
      exact ⟨'M', List.mem_cons_self _ _, by decide⟩
    · rw [if_neg h2]
      cases hfc : findCap w with
      | some v =>
        show ∃ c ∈ (if i = 0 then pyCapitalize w else v), pyIsSpace c = false
        by_cases hi : i = 0
        · rw [if_pos hi]
          exact pyCapitalize_solid hne hws
        · rw [if_neg hi]
          unfold findCap at hfc
          obtain ⟨p, hfind, hv⟩ := Option.map_eq_some'.mp hfc
          obtain ⟨c, hc, hcs⟩ :=
            word_capitalizations_ok p (List.mem_of_find?_eq_some hfind)
          exact ⟨c, hv ▸ hc, hcs⟩
      | none =>
        show ∃ c ∈ (if w.contains '-' = true then
            joinSep ['-'] (List.map pyCapitalize (splitHyphen w))
          else pyCapitalize w), pyIsSpace c = false
        by_cases h3 : w.contains '-' = true
        · rw [if_pos h3]
          have hcnt : (w.filter (fun c => c = '-')).length ≥ 1 := by
            have hmem : '-' ∈ w := by simpa using h3
            have : '-' ∈ w.filter (fun c => c = '-') :=
              List.mem_filter.mpr ⟨hmem, by simp⟩
            exact List.length_pos.mpr (List.ne_nil_of_mem this)
          obtain ⟨x, xs, hxx⟩ : ∃ x xs, (splitHyphen w).map pyCapitalize = x :: xs := by
            have hlen : ((splitHyphen w).map pyCapitalize).length ≥ 2 := by
              rw [List.length_map]
              unfold splitHyphen
              rw [splitHyAux_length]
              omega
            cases hm : (splitHyphen w).map pyCapitalize with
            | nil => rw [hm] at hlen; simp at hlen
            | cons x xs => exact ⟨x, xs, rfl⟩
          obtain ⟨y, ys, hyy⟩ : ∃ y ys, xs = y :: ys := by
            have hlen : ((splitHyphen w).map pyCapitalize).length ≥ 2 := by
              rw [List.length_map]
              unfold splitHyphen
              rw [splitHyAux_length]
              omega
            rw [hxx] at hlen
            cases hx : xs with
            | nil => rw [hx] at hlen; simp at hlen
            | cons y ys => exact ⟨y, ys, rfl⟩
          rw [hxx, hyy]
          refine ⟨'-', ?_, by decide⟩
          unfold joinSep
          exact List.mem_append_left _ (List.mem_append_right _ (by simp))
        · rw [if_neg h3]
          exact pyCapitalize_solid hne hws



lemma extractBizAux_none_suffix :
    ∀ (L : List (List String × String)) (s suf nm : Str),
      extractBizAux L s = (suf, nm) → suf = [] → nm = s := by
  intro L
  induction L with
  | nil =>
    intro s suf nm h _
    simp [extractBizAux] at h
    exact h.2.symm
  | cons pr rest ih =>
    intro s suf nm h hsuf
    unfold extractBizAux at h
    cases hm : bizStripSuffix (pr.1.map String.data) s with
    | some kept =>
      rw [hm] at h
      simp at h
      rw [← h.1] at hsuf
      cases hsuf
    | none =>
      rw [hm] at h
      exact ih s suf nm h hsuf

lemma extractBizAux_matched :
    ∀ (L : List (List String × String)) (s suf nm : Str),
      extractBizAux L s = (suf, nm) → suf ≠ [] →
      ∃ pr ∈ L, (bizStripSuffix (pr.1.map String.data) s).isSome ∧
        suf = ' ' :: pr.2.data := by
  intro L
  induction L with
  | nil =>
    intro s suf nm h hsuf
    simp [extractBizAux] at h
    exact absurd h.1 hsuf
  | cons pr rest ih =>
    intro s suf nm h hsuf
    unfold extractBizAux at h
    cases hm : bizStripSuffix (pr.1.map String.data) s with
    | some kept =>
      rw [hm] at h
      simp at h
      exact ⟨pr, List.mem_cons_self _ _, by simp [hm], h.1.symm⟩
    | none =>
      rw [hm] at h
      obtain ⟨q, hq, hqs, hqe⟩ := ih s suf nm h hsuf
      exact ⟨q, List.mem_cons_of_mem _ hq, hqs, hqe⟩

lemma biz_suffixes_solid :
    ∀ pr ∈ BUSINESS_SUFFIXES, ∃ c ∈ pr.2.data, pyIsSpace c = false := by
  decide

lemma capWords_cons (w : Str) (rest : List Str) :
    capWords (w :: rest) =
      capitalizeWord 0 w ::
        (rest.enumFrom 1).map (fun p => capitalizeWord p.1 p.2) := rfl

/-- The post-lookup tail of the pipeline (business suffix, conjunctions,
word replacement, capitalization, suffix reattachment, final strip)
produces a non-empty string whenever its input has a non-whitespace
character. -/
lemma normalizeTail_ne_nil {orig : Str}
    (hsolid : ∃ c ∈ orig, pyIsSpace c = false) (preserved : Str) :
    pyStrip
      (let biz := extractBizAux BUSINESS_SUFFIXES orig
       let bizSuffix := biz.1
       let name7 := biz.2
       let name8 := collapseWS (replaceStr '&' [] " & ".data
                      (replaceStr ' ' "AND ".data " & ".data name7))
       let name9 := joinSep [' '] ((splitWS name8).map applyWordRepl)
       let name10 := joinSep [' '] (capWords (splitWS name9))
       let name11 :=
         if !bizSuffix.isEmpty && bizAnyMatch orig
         then name10 ++ bizSuffix else name10
       if !preserved.isEmpty then name11 ++ preserved else name11) ≠ [] := by
  rcases hbz : extractBizAux BUSINESS_SUFFIXES orig with ⟨suf, nm⟩
  simp only [hbz]
  by_cases hsuf : suf = []
  · -- no business suffix: the words themselves survive
    have hnm : nm = orig := extractBizAux_none_suffix _ _ _ _ hbz hsuf
    subst hsuf
    subst hnm
    simp only [List.isEmpty_nil, Bool.not_true, Bool.false_and, Bool.false_eq_true,
      if_false]
    have h8 : ∃ c ∈ collapseWS (replaceStr '&' [] " & ".data
        (replaceStr ' ' "AND ".data " & ".data nm)), pyIsSpace c = false :=
      collapseWS_solid (replaceStr_solid (by decide)
        (replaceStr_solid (by decide) hsolid))
    obtain ⟨w1, rest1, hsplit1⟩ : ∃ w1 rest1,
        splitWS (collapseWS (replaceStr '&' [] " & ".data
          (replaceStr ' ' "AND ".data " & ".data nm))) = w1 :: rest1 := by
      cases hx : splitWS (collapseWS (replaceStr '&' [] " & ".data
          (replaceStr ' ' "AND ".data " & ".data nm))) with
      | nil => exact absurd hx (splitWS_ne_nil h8)
      | cons w1 rest1 => exact ⟨w1, rest1, rfl⟩
    have hw1 := splitWS_words w1 (hsplit1 ▸ List.mem_cons_self _ _)
    have hw1r := applyWordRepl_ok hw1.1 hw1.2
    obtain ⟨d, hd, hds⟩ : ∃ c ∈ applyWordRepl w1, pyIsSpace c = false := by
      obtain ⟨d, hd⟩ := List.exists_mem_of_ne_nil _ hw1r.1
      exact ⟨d, hd, hw1r.2 d hd⟩
    have h9 : ∃ c ∈ joinSep [' '] ((splitWS (collapseWS (replaceStr '&' []
        " & ".data (replaceStr ' ' "AND ".data " & ".data nm)))).map
          applyWordRepl), pyIsSpace c = false := by
      rw [hsplit1]
      exact ⟨d, joinSep_mem_left hd, hds⟩
    obtain ⟨w2, rest2, hsplit2⟩ : ∃ w2 rest2,
        splitWS (joinSep [' '] ((splitWS (collapseWS (replaceStr '&' []
          " & ".data (replaceStr ' ' "AND ".data " & ".data nm)))).map
            applyWordRepl)) = w2 :: rest2 := by
      cases hx : splitWS (joinSep [' '] ((splitWS (collapseWS (replaceStr '&' []
          " & ".data (replaceStr ' ' "AND ".data " & ".data nm)))).map
            applyWordRepl)) with
      | nil => exact absurd hx (splitWS_ne_nil h9)
      | cons w2 rest2 => exact ⟨w2, rest2, rfl⟩
    have hw2 := splitWS_words w2 (hsplit2 ▸ List.mem_cons_self _ _)
    obtain ⟨e, he, hes⟩ := capitalizeWord_solid 0 hw2.1 hw2.2
    apply pyStrip_ne_nil_of_solid
    by_cases hpres : preserved.isEmpty = true
    · rw [if_neg (by simp [hpres])]
      refine ⟨e, ?_, hes⟩
      rw [hsplit2, capWords_cons]
      exact joinSep_mem_left he
    · rw [if_pos (by simp [hpres])]
      refine ⟨e, List.mem_append_left _ ?_, hes⟩
      rw [hsplit2, capWords_cons]
      exact joinSep_mem_left he
  · -- a business suffix was matched and is re-appended
    obtain ⟨pr, hprm, hprs, hsufeq⟩ := extractBizAux_matched _ _ _ _ hbz hsuf
    have hany : bizAnyMatch orig = true :=
      List.any_eq_true.mpr ⟨pr, hprm, by simpa using hprs⟩
    have hcond : (!suf.isEmpty && bizAnyMatch orig) = true := by
      simp [hany, List.isEmpty_iff, hsuf]
    simp only [hcond, if_true]
    obtain ⟨d, hd, hds⟩ := biz_suffixes_solid pr hprm
    have hdmem : d ∈ suf := by
      rw [hsufeq]
      exact List.mem_cons_of_mem _ hd
    apply pyStrip_ne_nil_of_solid
    by_cases hpres : preserved.isEmpty = true
    · rw [if_neg (by simp [hpres])]
      exact ⟨d, List.mem_append_right _ hdmem, hds⟩
    · rw [if_pos (by simp [hpres])]
      exact ⟨d, List.mem_append_left _ (List.mem_append_right _ hdmem), hds⟩

/-! ## Embedding validation: the spec's end-to-end scenarios -/

example : _normalize_name "SEVEN-D CONSTRUCTION CO*" = "Seven-D Construction Co" := by decide
example : _normalize_name "A AND B CONSTRUCTION" = "A & B Construction" := by decide
example : _normalize_name "SUMIT NSTRUCTION" = "Sumit Construction" := by decide
example : _normalize_name "SMITH CONSTR. (SL-1234)" = "Smith Construction (SL-1234)" := by decide
example : _normalize_name "ABC CO (HOMEOWNER)" = "ABC Co" := by decide
example : _normalize_name "ABC PLBG & HTG" = "ABC Plumbing & Heating" := by decide
example : _normalize_name "chicago concrete" = "Chicago Concrete" := by decide
example : _normalize_name "M & J ASPHALT *" = "M&J Asphalt" := by decide

/-! ## The claims -/

/-- C1: the claim asserts `_normalize_name` is idempotent on every string,
in particular on canonical outputs.  The code violates it: the alias value
for `"G&V CONST"` is `"G&V Construction"`, but re-running the pipeline on
that canonical output spaces out the ampersand (the alias table has no key
`"G&V CONSTRUCTION"`, unlike the analogous `"M&J ASPHALT"` entry), so the
canonical name is altered. -/
theorem claim1_idempotence_fails_on_GV :
    _normalize_name "G&V CONST" = "G&V Construction" ∧
    _normalize_name (_normalize_name "G&V CONST") = "G & V Construction" ∧
    _normalize_name (_normalize_name "G&V CONST") ≠ _normalize_name "G&V CONST" := by
  refine ⟨by decide, by decide, by decide⟩

/-- C2: on raw rows with counts COMED 5, COM ED 3, COM-ED 2 the claim
requires the single merged entry (ComEd, 10); the code groups by the raw
name, only normalizes afterwards, and never re-merges, so the leaderboard
holds three separate ComEd entries. -/
theorem claim2_leaderboard_variants_not_merged :
    get_contractor_leaderboard rowsClaim2 0 5 =
      [("ComEd", 5), ("ComEd", 3), ("ComEd", 2)] ∧
    get_contractor_leaderboard rowsClaim2 0 5 ≠ [("ComEd", 10)] := by
  refine ⟨by decide, by decide⟩

/-- C5: the claim (with the spec) requires three independent top-N
rankings — by total, by emergency count, by distinct streets.  The code
returns one flat list ranked by total count only: with limit 1, BRAVO
leads the spec's emergency ranking yet appears nowhere in the output. -/
theorem claim5_single_flat_ranking_only :
    get_contractor_leaderboard rowsClaim5 0 1 = [("Alpha", 3)] ∧
    specEmergencyTopN rowsClaim5 0 1 = [("Bravo", 2)] ∧
    (∀ p ∈ get_contractor_leaderboard rowsClaim5 0 1, p.1 ≠ "Bravo") := by
  refine ⟨by decide, by decide, by decide⟩

/-- C9: the claim says daily totals over zero matching rows return the
zero-valued structure without an exception.  In the code the aggregate
query returns one row with a `NULL` `SUM`, pandas renders it as `NaN`,
and `int(NaN or 0)` raises (re-raised as `StatsGenerationError`); a
non-empty day works fine. -/
theorem claim9_daily_stats_empty_raises :
    generate_daily_stats [] 0 =
      Except.error "cannot convert float NaN to integer" ∧
    generate_daily_stats [⟨none, some "ACME", 0, true, "A"⟩] 0 =
      Except.ok ⟨1, 1, 0, 1⟩ := by
  refine ⟨rfl, rfl⟩

/-- C8: whenever the historical same-weekday average of a metric is 0,
`get_day_of_week_comparison` reports a percent difference of exactly 0
for that metric — the `avg > 0` guard makes the division unreachable. -/
theorem claim8_percent_diff_zero_average (rows : List PermitRow) (t w : Int) :
    (histAvgTotal rows t w = 0 →
      (get_day_of_week_comparison rows t w).total_diff_percent = 0) ∧
    (histAvgEmergency rows t w = 0 →
      (get_day_of_week_comparison rows t w).emergency_diff_percent = 0) ∧
    (histAvgTotal rows t w - histAvgEmergency rows t w = 0 →
      (get_day_of_week_comparison rows t w).regular_diff_percent = 0) := by
  refine ⟨fun h => ?_, fun h => ?_, fun h => ?_⟩
  · rw [dow_total_diff]; exact calc_percent_diff_of_avg_eq_zero _ h
  · rw [dow_emergency_diff]; exact calc_percent_diff_of_avg_eq_zero _ h
  · rw [dow_regular_diff]; exact calc_percent_diff_of_avg_eq_zero _ h

/-- C8 witness: an empty history gives a zero average and a zero percent
difference. -/
theorem claim8_witness :
    histAvgTotal [] 0 7 = 0 ∧
    (get_day_of_week_comparison [] 0 7).total_diff_percent = 0 :=
  ⟨by decide, (claim8_percent_diff_zero_average [] 0 7).1 (by decide)⟩

/-- C10: every leaderboard entry has a non-empty name (groups whose name
normalizes to the falsy empty string are dropped), and concretely a date
with two raw groups can yield a single-entry leaderboard at limit 2. -/
theorem claim10_leaderboard_names_nonempty :
    (∀ (rows : List PermitRow) (yd : Int) (limit : Nat),
      ∀ p ∈ get_contractor_leaderboard rows yd limit, p.1 ≠ "") ∧
    (rawGroupsOn rowsClaim10 0).length = 2 ∧
    (get_contractor_leaderboard rowsClaim10 0 2).length = 1 := by
  refine ⟨?_, by decide, by decide⟩
  intro rows yd limit p hp
  rw [get_contractor_leaderboard_eq] at hp
  have h1 := List.take_subset _ _ hp
  have h2 := mem_of_mem_sortCountDesc h1
  exact lbAppend_fold_names _ [] (by simp) p h2

/-- C10 witness: the sole entry of the concrete leaderboard, with its
non-empty name obtained from the theorem. -/
theorem claim10_witness :
    ("Acme", 1) ∈ get_contractor_leaderboard rowsClaim10 0 2 ∧
    (("Acme", 1) : String × Nat).1 ≠ "" :=
  ⟨by decide,
   claim10_leaderboard_names_nonempty.1 rowsClaim10 0 2 ("Acme", 1) (by decide)⟩

/-- C4: newcomer detection (modelled from the spec, no implementation
under `src/`) returns "none" exactly when no contractor qualifies;
otherwise it returns a canonical name that occurs in the target-date
records, whose canonical name never occurs strictly before the target
date (so a contractor previously seen under a different raw spelling of
the same canonical name is never reported), and whose target-date ticket
count is maximal among the qualifiers. -/
theorem claim4_newcomer_detection (rows : List PermitRow) (target : Int) :
    (newcomerCandidates rows target = [] → get_newcomer rows target = "none") ∧
    (newcomerCandidates rows target ≠ [] →
      get_newcomer rows target ∈ newcomerCandidates rows target ∧
      (∃ r ∈ rows, r.dig_date = target ∧ canonOf r = get_newcomer rows target) ∧
      (∀ r ∈ rows, r.dig_date < target →
        canonOf r ≠ get_newcomer rows target) ∧
      (∀ c ∈ newcomerCandidates rows target,
        targetCount rows target c ≤
          targetCount rows target (get_newcomer rows target))) := by
  constructor
  · intro h
    simp [get_newcomer, h, argmaxBy]
  · intro h
    obtain ⟨c, hc⟩ : ∃ c, argmaxBy (targetCount rows target)
        (newcomerCandidates rows target) = some c := by
      cases hx : argmaxBy (targetCount rows target) (newcomerCandidates rows target) with
      | none => exact absurd ((argmaxBy_eq_none_iff _ _).mp hx) h
      | some c => exact ⟨c, rfl⟩
    have hres : get_newcomer rows target = c := by simp [get_newcomer, hc]
    have hmem : c ∈ newcomerCandidates rows target := argmaxBy_mem _ hc
    have hcand := hmem
    simp only [newcomerCandidates, List.mem_filter] at hcand
    obtain ⟨hin, hnotprior⟩ := hcand
    refine ⟨by rw [hres]; exact hmem, ?_, ?_, ?_⟩
    · have hmap := mem_of_mem_dedupFS hin
      simp only [List.mem_map, List.mem_filter, decide_eq_true_eq] at hmap
      obtain ⟨r, ⟨hr, hrd⟩, hcan⟩ := hmap
      exact ⟨r, hr, hrd, by rw [hres]; exact hcan⟩
    · intro r hr hrlt heq
      rw [hres] at heq
      simp only [Bool.not_eq_true'] at hnotprior
      simp at hnotprior
      exact hnotprior r hr hrlt heq
    · intro c2 hc2
      rw [hres]
      exact argmaxBy_le _ hc c2 hc2

/-- C4 witness: ComEd appears on day 0 as COMED and on day 5 as COM-ED;
NEWDIG LLC first appears on day 5, so it (canonically, "Newdig LLC") is
the newcomer, and "ComEd" is not a qualifier. -/
theorem claim4_witness :
    newcomerCandidates rowsClaim4 5 ≠ [] ∧
    get_newcomer rowsClaim4 5 ∈ newcomerCandidates rowsClaim4 5 ∧
    get_newcomer rowsClaim4 5 = "Newdig LLC" ∧
    "ComEd" ∉ newcomerCandidates rowsClaim4 5 :=
  ⟨by decide, ((claim4_newcomer_detection rowsClaim4 5).2 (by decide)).1,
   by decide, by decide⟩

/-- C7: the claim expects `_parse_record` on `"('ACME CO*', 7)"` to yield
name "Acme Co" with count 7.  The regex keeps the quote characters inside
group 1, `strip()` removes only whitespace, and the normalizer carries
them through (the leading quote even suppresses the usual
capitalization), so the parsed name is not "Acme Co". -/
theorem claim7_counterexample :
    _parse_record "(\x27ACME CO*\x27, 7)" ≠ some ("Acme Co", 7) := by decide

/-- C7 (amended): on the quoted encoding the last integer token does
become the count and the asterisk is removed, but the quotes are carried
into the name, which comes out as "'acme CO'"; the claimed pair
(name "Acme Co", count 7) is produced for the unquoted encoding
`"(ACME CO*, 7)"`. -/
theorem claim7_parse_amended :
    _parse_record "(\x27ACME CO*\x27, 7)" = some ("\x27acme CO\x27", 7) ∧
    _parse_record "(ACME CO*, 7)" = some ("Acme Co", 7) := by
  refine ⟨by decide, by decide⟩

/-- C3 counterexample: the alias key
"CITY OF CHICAGO (DEPT OF WATER MANAGEMENT)" is in the table, yet
normalizing it yields "City of Chicago" — the parenthetical part of the
key is stripped from the input before the table is consulted, and the
stripped remainder (with its trailing space) matches no key — instead of
the mapped value "Department of Water Management". -/
theorem claim3_counterexample :
    ("CITY OF CHICAGO (DEPT OF WATER MANAGEMENT)",
      "Department of Water Management") ∈ NAME_MAPPINGS ∧
    _normalize_name "CITY OF CHICAGO (DEPT OF WATER MANAGEMENT)" =
      "City of Chicago" ∧
    ("City of Chicago" : String) ≠ "Department of Water Management" := by
  refine ⟨by decide, by decide, by decide⟩

/-- C3 (amended): for every alias key without a parenthetical, every
variant differing from the key only in letter case or in hyphen/space
separators (rendered as: uppercasing the variant and collapsing
hyphen/space runs yields the key's hyphen/space collapse) normalizes to
exactly the mapped canonical value. -/
theorem claim3_alias_totality_amended (k v : String)
    (hkv : (k, v) ∈ NAME_MAPPINGS)
    (hnp : '(' ∉ k.data)
    (s : String)
    (hvar : collapseHS (pyUpper s.data) = collapseHS k.data) :
    _normalize_name s = v := by
  obtain ⟨hks, hupk, hvne⟩ := mappings_keyShape (k, v) hkv
  obtain ⟨hkne, hkstar, ⟨kh, hkh, hkhs⟩, ⟨kl, hkl, hkls⟩⟩ := keyShape_unpack hks
  set u := pyUpper s.data with hu
  obtain ⟨ka, kt, hkcons⟩ := List.exists_cons_of_ne_nil hkne
  have hckne : collapseHS k.data ≠ [] := by
    rw [hkcons]; exact collapseByAux_false_ne_nil _ _ _
  have hune : u ≠ [] := by
    intro he
    rw [he] at hvar
    exact hckne hvar.symm
  -- head of u is not a separator
  obtain ⟨a, hua⟩ : ∃ a, u.head? = some a := by
    cases hx : u.head? with
    | none => exact absurd (List.head?_eq_none_iff.mp hx) hune
    | some a => exact ⟨a, rfl⟩
  have hheq := congrArg List.head? hvar
  rw [show collapseHS u = collapseBy isHS u from rfl,
      show collapseHS k.data = collapseBy isHS k.data from rfl,
      head?_collapseBy, head?_collapseBy, hua, hkh] at hheq
  simp only [Option.map_some'] at hheq
  rw [if_neg (show ¬ isHS kh = true by simp [hkhs])] at hheq
  injection hheq with hheq2
  have has : isHS a = false := by
    by_cases hx : isHS a = true
    · rw [if_pos hx] at hheq2
      rw [← hheq2] at hkhs
      exact absurd hkhs (by decide)
    · simpa using hx
  have haws : pyIsSpace a = false := by
    by_cases hx : pyIsSpace a = true
    · exfalso; have : isHS a = true := by simp [isHS, hx]
      rw [this] at has; cases has
    · simpa using hx
  -- last of u is not a separator
  obtain ⟨b, hub⟩ : ∃ b, u.getLast? = some b := by
    cases hx : u.getLast? with
    | none => exact absurd (List.getLast?_eq_none_iff.mp hx) hune
    | some b => exact ⟨b, rfl⟩
  have hleq := congrArg List.getLast? hvar
  have hrlast : (collapseHS k.data).getLast? = some kl :=
    getLast?_collapseByAux_of_not isHS hkls k.data false hkl
  have hbs : isHS b = false := by
    by_cases hx : isHS b = true
    · exfalso
      rcases getLast?_collapseByAux_of_sep isHS hx u false hub with h1 | h1
      · rw [show collapseByAux isHS false u = collapseHS u from rfl, hleq, hrlast] at h1
        injection h1 with h1x
        rw [h1x] at hkls
        exact absurd hkls (by decide)
      · rw [show collapseByAux isHS false u = collapseHS u from rfl] at h1
        rw [hvar] at h1
        exact hckne h1
    · simpa using hx
  have hbws : pyIsSpace b = false := by
    by_cases hx : pyIsSpace b = true
    · exfalso; have : isHS b = true := by simp [isHS, hx]
      rw [this] at hbs; cases hbs
    · simpa using hx
  -- no asterisk, no parenthesis in u
  have hstar : '*' ∉ u := by
    intro hm
    have h1 : '*' ∈ collapseHS u :=
      mem_collapseByAux_of_mem isHS (by decide) u false hm
    rw [hvar] at h1
    rcases mem_of_mem_collapseByAux isHS k.data false h1 with h2 | h2
    · exact hkstar _ h2 rfl
    · exact absurd h2 (by decide)
  have hpu : '(' ∉ u := by
    intro hm
    have h1 : '(' ∈ collapseHS u :=
      mem_collapseByAux_of_mem isHS (by decide) u false hm
    rw [hvar] at h1
    rcases mem_of_mem_collapseByAux isHS k.data false h1 with h2 | h2
    · exact hnp h2
    · exact absurd h2 (by decide)
  -- the whitespace-collapse step
  have hwhead : (collapseWS u).head? = some a := by
    rw [show collapseWS u = collapseBy pyIsSpace u from rfl, head?_collapseBy, hua]
    simp [haws]
  have hwlast : (collapseWS u).getLast? = some b :=
    getLast?_collapseByAux_of_not pyIsSpace hbws u false hub
  have hstripw : pyStrip (collapseWS u) = collapseWS u :=
    pyStrip_eq_self hwhead haws hwlast hbws
  have hwch : collapseHS (collapseWS u) = collapseHS k.data := by
    rw [collapseHS_collapseWS]; exact hvar
  have hwp : '(' ∉ collapseWS u := by
    intro hm
    rcases mem_of_mem_collapseByAux pyIsSpace u false hm with h1 | h1
    · exact hpu h1
    · exact absurd h1 (by decide)
  have hsne : s.data.isEmpty = false := by
    cases hsd : s.data with
    | nil => exact absurd (by rw [hu, hsd]; rfl) hune
    | cons x xs => rfl
  -- compute the pipeline down to the alias lookup
  suffices hnc : normalizeChars s.data = v.data by
    show String.mk (normalizeChars s.data) = v
    rw [hnc]
  unfold normalizeChars
  rw [if_neg (by simp [hsne])]
  simp only [← hu]
  simp only [dropTrailingStars_eq_self hstar, removeStars_eq_self hstar,
    hstripw, extractPreserved_id hwp, removeSuffixFold_id hwp,
    removeAll_eq_self (fun c t hc => matchResidualParen_cons_eq_none hc t) hwp]
  cases hle : lookupExact (collapseWS u) with
  | some v1 =>
    simp only [hle, List.append_nil]
    unfold lookupExact at hle
    obtain ⟨p, hfind, hv1⟩ := Option.map_eq_some'.mp hle
    have hpmem := List.mem_of_find?_eq_some hfind
    have hp1 := List.find?_some hfind
    have hppred : p.1.data = collapseWS u := eq_of_beq hp1
    have hcons : collapseHS p.1.data = collapseHS k.data := by
      rw [hppred]; exact hwch
    have := mappings_consistent p hpmem (k, v) hkv hcons
    rw [← hv1, this]
  | none =>
    simp only [hle]
    cases hlc : lookupCollapsed (collapseWS u) with
    | some v1 =>
      simp only [hlc, List.append_nil]
      unfold lookupCollapsed at hlc
      obtain ⟨p, hfind, hv1⟩ := Option.map_eq_some'.mp hlc
      have hpmem := List.mem_of_find?_eq_some hfind
      have hp1 := List.find?_some hfind
      have hppred : collapseHS (pyUpper p.1.data) = collapseHS (collapseWS u) :=
        eq_of_beq hp1
      have hup : pyUpper p.1.data = p.1.data := (mappings_keyShape p hpmem).2.1
      have hcons : collapseHS p.1.data = collapseHS k.data := by
        rw [← hup, hppred, hwch]
      have := mappings_consistent p hpmem (k, v) hkv hcons
      rw [← hv1, this]
    | none =>
      exfalso
      unfold lookupCollapsed at hlc
      have hsome : (NAME_MAPPINGS.find? (fun p =>
          collapseHS (pyUpper p.1.data) == collapseHS (collapseWS u))).isSome :=
        List.find?_isSome.mpr ⟨(k, v), hkv, by simp [hupk, hwch]⟩
      rw [Option.map_eq_none'.mp hlc] at hsome
      cases hsome

/-- C3 witness: the variant "com-ed" of the key "COM ED" normalizes to
"ComEd". -/
theorem claim3_witness :
    ("COM ED", "ComEd") ∈ NAME_MAPPINGS ∧ _normalize_name "com-ed" = "ComEd" :=
  ⟨by decide,
   claim3_alias_totality_amended "COM ED" "ComEd" (by decide) (by decide)
     "com-ed" (by decide)⟩

/-- C6 counterexample: the non-empty input "*" normalizes to the empty
string (every asterisk is deleted and nothing remains). -/
theorem claim6_counterexample :
    ("*" : String) ≠ "" ∧ _normalize_name "*" = "" := by
  refine ⟨by decide, by decide⟩

/-- C6 (amended): _normalize_name returns a non-empty string for every
input containing no parenthesis character and at least one character that
is neither an asterisk nor whitespace; such a character always survives
to the final result. -/
theorem claim6_nonempty_amended (s : String)
    (hnp : ∀ c ∈ s.data, c ≠ '(')
    (hsolid : ∃ c ∈ s.data, pyIsSpace c = false ∧ c ≠ '*') :
    _normalize_name s ≠ "" := by
  obtain ⟨c0, hc0m, hc0ws, hc0star⟩ := hsolid
  set u := pyUpper s.data with hu
  have hc1 : pyUpperChar c0 ∈ u := List.mem_map_of_mem _ hc0m
  have hc1ws : pyIsSpace (pyUpperChar c0) = false := by
    rw [pyUpperChar_isSpace]; exact hc0ws
  have hc1star : pyUpperChar c0 ≠ '*' := pyUpperChar_ne_star hc0star
  have hpu : '(' ∉ u := by
    intro hm
    obtain ⟨d, hd, hdu⟩ := List.mem_map.mp hm
    exact pyUpperChar_ne_paren (hnp d hd) hdu
  have h5 : pyUpperChar c0 ∈ pyStrip (collapseWS (removeStars (dropTrailingStars u))) :=
    mem_pyStrip_of_mem
      (mem_collapseByAux_of_mem pyIsSpace hc1ws _ false
        (mem_removeStars_of_mem (mem_dropTrailingStars_of_mem hc1 hc1star) hc1star))
      hc1ws
  have hsolid3 : ∃ c ∈ pyStrip (collapseWS (removeStars (dropTrailingStars u))),
      pyIsSpace c = false := ⟨_, h5, hc1ws⟩
  have hp3 : '(' ∉ pyStrip (collapseWS (removeStars (dropTrailingStars u))) := by
    intro hm
    have hmw := mem_of_mem_pyStrip hm
    rcases mem_of_mem_collapseByAux pyIsSpace _ false hmw with h6 | h6
    · exact hpu (mem_of_mem_dropTrailingStars (mem_of_mem_removeStars h6))
    · exact absurd h6 (by decide)
  have hsne : s.data.isEmpty = false := by
    cases hsd : s.data with
    | nil => rw [hsd] at hc0m; cases hc0m
    | cons x xs => rfl
  suffices hnc : normalizeChars s.data ≠ [] by
    intro hstr
    apply hnc
    have h := congrArg String.data hstr
    simpa using h
  unfold normalizeChars
  rw [if_neg (by simp [hsne])]
  simp only [← hu]
  simp only [extractPreserved_id hp3, removeSuffixFold_id hp3,
    removeAll_eq_self (fun c t hc => matchResidualParen_cons_eq_none hc t) hp3]
  cases hle : lookupExact (pyStrip (collapseWS (removeStars (dropTrailingStars u)))) with
  | some v1 =>
    simp only [hle]
    unfold lookupExact at hle
    obtain ⟨p, hfind, hv1⟩ := Option.map_eq_some'.mp hle
    have hvne := (mappings_keyShape p (List.mem_of_find?_eq_some hfind)).2.2
    rw [List.append_nil, ← hv1]
    exact hvne
  | none =>
    simp only [hle]
    cases hlc : lookupCollapsed (pyStrip (collapseWS (removeStars (dropTrailingStars u)))) with
    | some v1 =>
      simp only [hlc]
      unfold lookupCollapsed at hlc
      obtain ⟨p, hfind, hv1⟩ := Option.map_eq_some'.mp hlc
      have hvne := (mappings_keyShape p (List.mem_of_find?_eq_some hfind)).2.2
      rw [List.append_nil, ← hv1]
      exact hvne
    | none =>
      simp only [hlc]
      exact normalizeTail_ne_nil hsolid3 []

/-- C6 witness: "ACME*" (no parenthesis, contains solid characters)
normalizes to a non-empty string. -/
theorem claim6_witness : _normalize_name "ACME*" ≠ "" :=
  claim6_nonempty_amended "ACME*" (by decide) (by decide)

end DigBot
